import Mathlib

/-!
Shallow embedding of the fast-nbt repository (Rust) for specification
verification.

Strings on the wire and in memory are modelled as raw byte sequences
(`List Nat`, each element < 256), matching the source's lenient policy of
pushing each byte as a char. Machine integers are modelled as `Int`/`Nat`
with explicit `% 2^w` wherever the Rust code wraps or truncates.

Sources embedded here:
* src/nbt_tag/mod.rs       (tag model, tag-kind ids, the byte encoder)
* src/file_parser/mod.rs   (the byte decoder `parse_bytes`)
* src/generic_bin/mod.rs   (compression layer; gzip/zlib are abstract
  parameters since their behaviour comes from the flate2 crate)
* src/region/mod.rs        (region container)
* src/lib.rs and src/chunk_format/mod.rs (identical logic: block search,
  palette decoding, packed-index extraction)
-/

namespace FastNbt

/-- Tag-kind enumeration, from `NbtTagType` in src/nbt_tag/mod.rs. -/
inductive NbtTagType where
  | endTag
  | byte
  | short
  | int
  | long
  | float
  | double
  | byteArray
  | string
  | list
  | compound
  | intArray
  | longArray
  deriving DecidableEq

/-- `NbtTagType::id` from src/nbt_tag/mod.rs. -/
def NbtTagType.id : NbtTagType → Nat
  | .endTag => 0
  | .byte => 1
  | .short => 2
  | .int => 3
  | .long => 4
  | .float => 5
  | .double => 6
  | .byteArray => 7
  | .string => 8
  | .list => 9
  | .compound => 10
  | .intArray => 11
  | .longArray => 12

/-- Error enumeration `NbtTagError` from src/nbt_tag/mod.rs.  The `Io`
variant covers the wrapped `std::io` errors (for the decoder: reading past
the end of the cursor). -/
inductive NbtTagError where
  | io
  | invalidTagType (id : Nat)
  | unknownCompression (id : Nat)
  | invalidChunkHeaderLength
  | chunkIndexOutOfBounds
  | maxNbtListLengthExceeded
  deriving DecidableEq

/-- `NbtTagType::from_id` from src/nbt_tag/mod.rs. -/
def NbtTagType.fromId (id : Nat) : Except NbtTagError NbtTagType :=
  match id with
  | 0 => .ok .endTag
  | 1 => .ok .byte
  | 2 => .ok .short
  | 3 => .ok .int
  | 4 => .ok .long
  | 5 => .ok .float
  | 6 => .ok .double
  | 7 => .ok .byteArray
  | 8 => .ok .string
  | 9 => .ok .list
  | 10 => .ok .compound
  | 11 => .ok .intArray
  | 12 => .ok .longArray
  | _ => .error (.invalidTagType id)

/-- The tag tree, from `NbtTag` and its payload structs in
src/nbt_tag/mod.rs.  Every named payload struct carries its `name`; float
and double payloads are kept as raw big-endian bit patterns because no
claim inspects them numerically. A compound's `values` HashMap is modelled
as an association list with unique keys (`insertKV` below is the map
insert). -/
inductive NbtTag where
  | endTag
  | byte (name : List Nat) (value : Int)
  | short (name : List Nat) (value : Int)
  | int (name : List Nat) (value : Int)
  | long (name : List Nat) (value : Int)
  | float (name : List Nat) (bits : Nat)
  | double (name : List Nat) (bits : Nat)
  | byteArray (name : List Nat) (values : List Int)
  | string (name : List Nat) (value : List Nat)
  | list (name : List Nat) (ty : NbtTagType) (values : List NbtTag)
  | compound (name : List Nat) (values : List (List Nat × NbtTag))
  | intArray (name : List Nat) (values : List Int)
  | longArray (name : List Nat) (values : List Int)

/-- `NbtTagCompound` from src/nbt_tag/mod.rs. -/
structure NbtTagCompound where
  name : List Nat
  values : List (List Nat × NbtTag)

/-- `HashMap::get`: first (unique) key match in the association list. -/
def lookupKV {β : Type} (m : List (List Nat × β)) (k : List Nat) : Option β :=
  match m with
  | [] => none
  | (k1, v) :: rest => if k1 = k then some v else lookupKV rest k

/-- `HashMap::insert`: replace the binding if the key is present, append
otherwise. -/
def insertKV {β : Type} (m : List (List Nat × β)) (k : List Nat) (v : β) :
    List (List Nat × β) :=
  match m with
  | [] => [(k, v)]
  | (k1, v1) :: rest => if k1 = k then (k, v) :: rest else (k1, v1) :: insertKV rest k v

/-- `NbtTag::ty` from src/nbt_tag/mod.rs. -/
def NbtTag.ty : NbtTag → NbtTagType
  | .endTag => .endTag
  | .byte _ _ => .byte
  | .short _ _ => .short
  | .int _ _ => .int
  | .long _ _ => .long
  | .float _ _ => .float
  | .double _ _ => .double
  | .byteArray _ _ => .byteArray
  | .string _ _ => .string
  | .list _ _ _ => .list
  | .compound _ _ => .compound
  | .intArray _ _ => .intArray
  | .longArray _ _ => .longArray

/-- `NbtTag::byte` (typed accessor), projected to the numeric value. -/
def NbtTag.byteVal : NbtTag → Option Int
  | .byte _ v => some v
  | _ => none

/-- `NbtTag::int` (typed accessor), projected to the numeric value. -/
def NbtTag.intVal : NbtTag → Option Int
  | .int _ v => some v
  | _ => none

/-- `NbtTag::compound` / `compound_as_ref` (typed accessor). -/
def NbtTag.compoundVal : NbtTag → Option NbtTagCompound
  | .compound n v => some ⟨n, v⟩
  | _ => none

/-! ## Byte-level integer conversions (big-endian wire format) -/

/-- Reinterpret a byte as a signed 8-bit value (`read_i8`). -/
def i8OfByte (b : Nat) : Int :=
  if b < 128 then (b : Int) else (b : Int) - 256

/-- Big-endian signed 16-bit read (`read_i16::<BigEndian>`). -/
def beI16 (b0 b1 : Nat) : Int :=
  let u := b0 * 256 + b1
  if u < 32768 then (u : Int) else (u : Int) - 65536

/-- Big-endian signed 32-bit read (`read_i32::<BigEndian>`). -/
def beI32 (b0 b1 b2 b3 : Nat) : Int :=
  let u := ((b0 * 256 + b1) * 256 + b2) * 256 + b3
  if u < 2147483648 then (u : Int) else (u : Int) - 4294967296

/-- Big-endian signed 64-bit read (`read_i64::<BigEndian>`). -/
def beI64 (b0 b1 b2 b3 b4 b5 b6 b7 : Nat) : Int :=
  let u := ((((((b0 * 256 + b1) * 256 + b2) * 256 + b3) * 256 + b4) * 256 + b5)
      * 256 + b6) * 256 + b7
  if u < 9223372036854775808 then (u : Int) else (u : Int) - 18446744073709551616

/-! ## The byte decoder, from src/file_parser/mod.rs

The Rust code threads a `Cursor<&[u8]>`; the model threads the unread
suffix of the byte list.  Outcomes: `ok value rest`, an `NbtTagError`
(`err`), a Rust panic (`panicked` — the `Vec::with_capacity`/
`String::with_capacity` capacity overflow reached by a negative length
prefix cast to `usize`), and `fuelOut`, an artifact of the structural
fuel used to present the mutual recursion; every entry point supplies
fuel exceeding the input length, which is never exhausted because each
recursive call consumes at least one byte. -/

/-- Result of a decoding step. -/
inductive PResult (α : Type) where
  | ok (a : α) (rest : List Nat)
  | err (e : NbtTagError)
  | panicked
  | fuelOut

/-- Sequencing of decoding steps; failure modes propagate. -/
def PResult.bind {α β : Type} (r : PResult α) (f : α → List Nat → PResult β) :
    PResult β :=
  match r with
  | .ok a rest => f a rest
  | .err e => .err e
  | .panicked => .panicked
  | .fuelOut => .fuelOut

/-- Read `n` raw bytes (the name / string payload loops). -/
def readNBytes : Nat → List Nat → PResult (List Nat)
  | 0, cur => .ok [] cur
  | _ + 1, [] => .err .io
  | n + 1, b :: rest => (readNBytes n rest).bind fun l r => .ok (b :: l) r

/-- `for _ in 0..len { read_i8 }` (ByteArray payload loop). -/
def readI8s : Nat → List Nat → PResult (List Int)
  | 0, cur => .ok [] cur
  | _ + 1, [] => .err .io
  | n + 1, b :: rest => (readI8s n rest).bind fun l r => .ok (i8OfByte b :: l) r

/-- `for _ in 0..len { read_i32 }` (IntArray payload loop). -/
def readI32s : Nat → List Nat → PResult (List Int)
  | 0, cur => .ok [] cur
  | n + 1, b0 :: b1 :: b2 :: b3 :: rest =>
      (readI32s n rest).bind fun l r => .ok (beI32 b0 b1 b2 b3 :: l) r
  | _ + 1, _ => .err .io

/-- `for _ in 0..len { read_i64 }` (LongArray payload loop). -/
def readI64s : Nat → List Nat → PResult (List Int)
  | 0, cur => .ok [] cur
  | n + 1, b0 :: b1 :: b2 :: b3 :: b4 :: b5 :: b6 :: b7 :: rest =>
      (readI64s n rest).bind fun l r => .ok (beI64 b0 b1 b2 b3 b4 b5 b6 b7 :: l) r
  | _ + 1, _ => .err .io

mutual

/-- `parse_value` from src/file_parser/mod.rs. -/
def parseValue : Nat → NbtTagType → List Nat → List Nat → PResult NbtTag
  | 0, _, _, _ => .fuelOut
  | fuel + 1, ty, name, cur =>
    match ty with
    | .endTag => .err (.invalidTagType 0)
    | .byte =>
      match cur with
      | b :: rest => .ok (.byte name (i8OfByte b)) rest
      | [] => .err .io
    | .short =>
      match cur with
      | b0 :: b1 :: rest => .ok (.short name (beI16 b0 b1)) rest
      | _ => .err .io
    | .int =>
      match cur with
      | b0 :: b1 :: b2 :: b3 :: rest => .ok (.int name (beI32 b0 b1 b2 b3)) rest
      | _ => .err .io
    | .long =>
      match cur with
      | b0 :: b1 :: b2 :: b3 :: b4 :: b5 :: b6 :: b7 :: rest =>
          .ok (.long name (beI64 b0 b1 b2 b3 b4 b5 b6 b7)) rest
      | _ => .err .io
    | .float =>
      match cur with
      | b0 :: b1 :: b2 :: b3 :: rest =>
          .ok (.float name (((b0 * 256 + b1) * 256 + b2) * 256 + b3)) rest
      | _ => .err .io
    | .double =>
      match cur with
      | b0 :: b1 :: b2 :: b3 :: b4 :: b5 :: b6 :: b7 :: rest =>
          .ok (.double name (((((((b0 * 256 + b1) * 256 + b2) * 256 + b3) * 256 + b4)
            * 256 + b5) * 256 + b6) * 256 + b7)) rest
      | _ => .err .io
    | .byteArray =>
      match cur with
      | b0 :: b1 :: b2 :: b3 :: rest =>
          let len := beI32 b0 b1 b2 b3
          if len > 65536 then .err .maxNbtListLengthExceeded
          else if len < 0 then .panicked
          else (readI8s len.toNat rest).bind fun vs r => .ok (.byteArray name vs) r
      | _ => .err .io
    | .string =>
      match cur with
      | b0 :: b1 :: rest =>
          (readNBytes (b0 * 256 + b1) rest).bind fun s r => .ok (.string name s) r
      | _ => .err .io
    | .list => parseList fuel name cur
    | .compound =>
      match parseCompoundLoop fuel name [] cur with
      | .ok c rest => .ok (.compound c.name c.values) rest
      | .err e => .err e
      | .panicked => .panicked
      | .fuelOut => .fuelOut
    | .intArray =>
      match cur with
      | b0 :: b1 :: b2 :: b3 :: rest =>
          let len := beI32 b0 b1 b2 b3
          if len > 65536 then .err .maxNbtListLengthExceeded
          else if len < 0 then .panicked
          else (readI32s len.toNat rest).bind fun vs r => .ok (.intArray name vs) r
      | _ => .err .io
    | .longArray =>
      match cur with
      | b0 :: b1 :: b2 :: b3 :: rest =>
          let len := beI32 b0 b1 b2 b3
          if len > 65536 then .err .maxNbtListLengthExceeded
          else if len < 0 then .panicked
          else (readI64s len.toNat rest).bind fun vs r => .ok (.longArray name vs) r
      | _ => .err .io

/-- `parse_list` from src/file_parser/mod.rs. -/
def parseList : Nat → List Nat → List Nat → PResult NbtTag
  | 0, _, _ => .fuelOut
  | fuel + 1, name, cur =>
    match cur with
    | [] => .err .io
    | tyByte :: cur1 =>
      match NbtTagType.fromId tyByte with
      | .error e => .err e
      | .ok ty =>
        match cur1 with
        | b0 :: b1 :: b2 :: b3 :: rest =>
            let len := beI32 b0 b1 b2 b3
            if len > 65536 then .err .maxNbtListLengthExceeded
            else if len < 0 then .panicked
            else
              match parseListElems fuel ty len.toNat rest with
              | .ok vs r => .ok (.list name ty vs) r
              | .err e => .err e
              | .panicked => .panicked
              | .fuelOut => .fuelOut
        | _ => .err .io

/-- The element loop of `parse_list`: `len` anonymous values of kind `ty`. -/
def parseListElems : Nat → NbtTagType → Nat → List Nat → PResult (List NbtTag)
  | _, _, 0, cur => .ok [] cur
  | 0, _, _ + 1, _ => .fuelOut
  | fuel + 1, ty, n + 1, cur =>
    match parseValue fuel ty [] cur with
    | .ok v rest =>
      match parseListElems fuel ty n rest with
      | .ok vs r => .ok (v :: vs) r
      | .err e => .err e
      | .panicked => .panicked
      | .fuelOut => .fuelOut
    | .err e => .err e
    | .panicked => .panicked
    | .fuelOut => .fuelOut

/-- The body loop of `parse_compound` from src/file_parser/mod.rs: read a
kind byte, stop on End, otherwise read a name, a value, and insert. -/
def parseCompoundLoop : Nat → List Nat → List (List Nat × NbtTag) → List Nat →
    PResult NbtTagCompound
  | 0, _, _, _ => .fuelOut
  | fuel + 1, name, acc, cur =>
    match cur with
    | [] => .err .io
    | tyByte :: cur1 =>
      match NbtTagType.fromId tyByte with
      | .error e => .err e
      | .ok ty =>
        if ty = .endTag then .ok ⟨name, acc⟩ cur1
        else
          match cur1 with
          | b0 :: b1 :: cur2 =>
              let nameLen := beI16 b0 b1
              if nameLen < 0 then .panicked
              else
                match readNBytes nameLen.toNat cur2 with
                | .ok entryName cur3 =>
                  match parseValue fuel ty entryName cur3 with
                  | .ok v cur4 => parseCompoundLoop fuel name (insertKV acc entryName v) cur4
                  | .err e => .err e
                  | .panicked => .panicked
                  | .fuelOut => .fuelOut
                | .err e => .err e
                | .panicked => .panicked
                | .fuelOut => .fuelOut
          | _ => .err .io

end

/-- `parse_bytes` from src/file_parser/mod.rs: root kind byte (must be
Compound), root name, then the compound body. -/
def parseBytes (bytes : List Nat) : PResult NbtTag :=
  match bytes with
  | [] => .err .io
  | idByte :: cur =>
    match NbtTagType.fromId idByte with
    | .error e => .err e
    | .ok ty =>
      if ty ≠ .compound then .err (.invalidTagType 0)
      else
        match cur with
        | b0 :: b1 :: cur2 =>
            let nameLen := beI16 b0 b1
            if nameLen < 0 then .panicked
            else
              (readNBytes nameLen.toNat cur2).bind fun name cur3 =>
                match parseCompoundLoop (bytes.length + 1) name [] cur3 with
                | .ok c rest => .ok (.compound c.name c.values) rest
                | .err e => .err e
                | .panicked => .panicked
                | .fuelOut => .fuelOut
        | _ => .err .io

/-! ## The byte encoder, from src/nbt_tag/mod.rs (`write` and helpers)

The encoder is modelled exactly as written, including its asymmetries
with the decoder: `write_compound` emits no End kind byte after the
children, `write_value` emits a kind byte before every list element, and
the ByteArray length prefix is written as an i16.  `HashMap::values()`
iteration is modelled as association-list order; the map keys are ignored
by the source (each child is written under its own `name` field). -/

/-- Truncating cast to 16 bits followed by big-endian emission
(`write_i16`/`write_u16` applied to a length). -/
def be16OfNat (n : Nat) : List Nat :=
  [n % 65536 / 256, n % 256]

/-- `as i32` cast of a length followed by big-endian emission. -/
def be32OfNat (n : Nat) : List Nat :=
  [n % 4294967296 / 16777216, n % 16777216 / 65536, n % 65536 / 256, n % 256]

/-- Big-endian emission of a signed 8-bit value (`write_i8`). -/
def i8Bytes (v : Int) : List Nat :=
  [(v % 256).toNat]

/-- Big-endian emission of a signed 16-bit value (`write_i16`). -/
def i16Bytes (v : Int) : List Nat :=
  be16OfNat (v % 65536).toNat

/-- Big-endian emission of a signed 32-bit value (`write_i32`). -/
def i32Bytes (v : Int) : List Nat :=
  be32OfNat (v % 4294967296).toNat

/-- Big-endian emission of a signed 64-bit value (`write_i64`). -/
def i64Bytes (v : Int) : List Nat :=
  let u := (v % 18446744073709551616).toNat
  [u / 72057594037927936 % 256, u / 281474976710656 % 256,
   u / 1099511627776 % 256, u / 4294967296 % 256,
   u / 16777216 % 256, u / 65536 % 256, u / 256 % 256, u % 256]

/-- `write_tag_name` from src/nbt_tag/mod.rs: i16 length then the bytes. -/
def writeTagName (s : List Nat) : List Nat :=
  be16OfNat s.length ++ s

mutual

/-- `write_value` from src/nbt_tag/mod.rs. -/
def writeValue (writeName : Bool) : NbtTag → List Nat
  | .endTag => [0]
  | .byte n v => [1] ++ (if writeName then writeTagName n else []) ++ i8Bytes v
  | .short n v => [2] ++ (if writeName then writeTagName n else []) ++ i16Bytes v
  | .int n v => [3] ++ (if writeName then writeTagName n else []) ++ i32Bytes v
  | .long n v => [4] ++ (if writeName then writeTagName n else []) ++ i64Bytes v
  | .float n bits => [5] ++ (if writeName then writeTagName n else []) ++
      [bits % 4294967296 / 16777216, bits % 16777216 / 65536, bits % 65536 / 256, bits % 256]
  | .double n bits => [6] ++ (if writeName then writeTagName n else []) ++
      [bits % 18446744073709551616 / 72057594037927936, bits / 281474976710656 % 256,
       bits / 1099511627776 % 256, bits / 4294967296 % 256, bits / 16777216 % 256,
       bits / 65536 % 256, bits / 256 % 256, bits % 256]
  | .byteArray n vs => [7] ++ (if writeName then writeTagName n else []) ++
      be16OfNat vs.length ++ vs.flatMap i8Bytes
  | .string n v => [8] ++ (if writeName then writeTagName n else []) ++
      be16OfNat v.length ++ v
  | .list n ty vs => [9] ++ (if writeName then writeTagName n else []) ++
      [ty.id] ++ be32OfNat vs.length ++ writeListVals vs
  | .compound n vs => [10] ++ (if writeName then writeTagName n else []) ++
      writeCompoundBody vs
  | .intArray n vs => [11] ++ (if writeName then writeTagName n else []) ++
      be32OfNat vs.length ++ vs.flatMap i32Bytes
  | .longArray n vs => [12] ++ (if writeName then writeTagName n else []) ++
      be32OfNat vs.length ++ vs.flatMap i64Bytes

/-- The element loop of the List branch of `write_value` (elements are
written via `write_value(buf, val, false)`, kind byte included). -/
def writeListVals : List NbtTag → List Nat
  | [] => []
  | v :: rest => writeValue false v ++ writeListVals rest

/-- `write_compound` from src/nbt_tag/mod.rs: the children in map order,
each with its name — and no End terminator afterwards. -/
def writeCompoundBody : List (List Nat × NbtTag) → List Nat
  | [] => []
  | (_, v) :: rest => writeValue true v ++ writeCompoundBody rest

end

/-- `write` from src/nbt_tag/mod.rs: kind byte, root name, compound body. -/
def writeTag (c : NbtTagCompound) : List Nat :=
  [10] ++ writeTagName c.name ++ writeCompoundBody c.values

/-! ## Compression layer, from src/generic_bin/mod.rs

The gzip and zlib deflate codecs live in the flate2 crate, outside this
repository, so decompression is abstracted as two function parameters
returning `none` on failure. -/

/-- `CompressionType` from src/generic_bin/mod.rs. -/
inductive CompressionType where
  | uncompressed
  | gzip
  | zlib
  deriving DecidableEq

/-- `CompressionType::to_u8`. -/
def CompressionType.toU8 : CompressionType → Nat
  | .uncompressed => 0
  | .gzip => 1
  | .zlib => 2

/-- `CompressionError` from src/generic_bin/mod.rs. -/
inductive CompressionError where
  | unknownCompression (id : Nat)
  | io
  deriving DecidableEq

/-- `CompressionType::from_u8`. -/
def CompressionType.fromU8 (value : Nat) : Except CompressionError CompressionType :=
  match value with
  | 0 => .ok .uncompressed
  | 1 => .ok .gzip
  | 2 => .ok .zlib
  | _ => .error (.unknownCompression value)

/-- `GenericBinError` from src/generic_bin/mod.rs. -/
inductive GenericBinError where
  | compression (e : CompressionError)
  | io
  | decompressionFailed
  | parseError
  deriving DecidableEq

/-- An abstract decompressor: `some` on success, `none` when the flate2
decoder reports an error. -/
def Decompressor : Type := List Nat → Option (List Nat)

/-- `GenericBinFile::decode_binary_data` from src/generic_bin/mod.rs,
parameterised by the two external decompressors; `method` is the single
byte `chunk_compression_method[0]`. -/
def decodeBinaryData (gz zl : Decompressor) (chunkPayload : List Nat)
    (method : Nat) : Except GenericBinError (List Nat) :=
  match CompressionType.fromU8 method with
  | .error e => .error (.compression e)
  | .ok .gzip =>
    match gz chunkPayload with
    | some d => .ok d
    | none => .error .io
  | .ok .zlib =>
    match zl chunkPayload with
    | some d => .ok d
    | none => .error .io
  | .ok .uncompressed => .ok chunkPayload

/-- The method loop of `GenericBinFile::try_decode_data`: first successful
decode wins, `DecompressionFailed` after the whole list fails. -/
def tryMethods (gz zl : Decompressor) (rawData : List Nat) :
    List CompressionType → Except GenericBinError (List Nat)
  | [] => .error .decompressionFailed
  | m :: ms =>
    match decodeBinaryData gz zl rawData m.toU8 with
    | .ok d => .ok d
    | .error _ => tryMethods gz zl rawData ms

/-- `GenericBinFile::try_decode_data` from src/generic_bin/mod.rs: attempt
gzip, then zlib, then uncompressed. -/
def tryDecodeData (gz zl : Decompressor) (rawData : List Nat) :
    Except GenericBinError (List Nat) :=
  tryMethods gz zl rawData [.gzip, .zlib, .uncompressed]

/-! ## Region container, from src/region/mod.rs

`RegionFile::new` reads the file into `raw_data`; the model starts from
that byte list.  Outcomes mirror `Result<_, RegionError>` plus `panicked`
for the unguarded payload slice `chunk_data[5..5 + real_chunk_len]`.
`decode_binary_data` returns a `GenericBinError`; the source hands it back
from a `RegionError`-typed function, modelled by the `binError` wrapper. -/

/-- `RegionError` from src/region/mod.rs. -/
inductive RegionError where
  | io
  | invalidRegionFile
  | chunkIndexOutOfBounds
  | invalidChunkOffsetSize
  | invalidChunkHeaderLength
  | parseError
  | binError (e : GenericBinError)
  deriving DecidableEq

/-- Result of a region operation. -/
inductive RResult (α : Type) where
  | ok (a : α)
  | err (e : RegionError)
  | panicked

/-- `RResult.ok` projection. -/
def RResult.toOption {α : Type} : RResult α → Option α
  | .ok a => some a
  | _ => none

/-- Whether a region operation succeeded. -/
def RResult.isOk {α : Type} : RResult α → Bool
  | .ok _ => true
  | _ => false

/-- `RegionFile::read_header`: the first 4096 bytes, or an error on a
shorter buffer. -/
def readHeader (regionContent : List Nat) : Except RegionError (List Nat) :=
  if 4096 ≤ regionContent.length then .ok (regionContent.take 4096)
  else .error .invalidRegionFile

/-- `slice::chunks(4)`: split into blocks of four bytes (the final block
may be shorter on inputs not a multiple of four). -/
def chunksOf4 : List Nat → List (List Nat)
  | [] => []
  | a :: b :: c :: d :: rest => [a, b, c, d] :: chunksOf4 rest
  | l => [l]

/-- `RegionFile::parse_chunk_offsets`: each entry yields the byte offset
`u32::from_be_bytes([b0, b1, b2, 0]) << 4` (a u32 shift, truncating) and
the byte size `b3 * 4096`.  A short trailing block cannot occur after
`read_header`; it is mapped to an absent entry. -/
def parseChunkOffsets (header : List Nat) : List (Nat × Nat) :=
  (chunksOf4 header).map fun e =>
    match e with
    | [b0, b1, b2, b3] =>
        (((b0 * 16777216 + b1 * 65536 + b2 * 256) * 16) % 4294967296, b3 * 4096)
    | _ => (0, 0)

/-- `RegionFile::read_and_decompress_chunk` from src/region/mod.rs, for
one offset-table entry (the index bound check is subsumed by iterating
the entry list). -/
def readAndDecompressChunk (gz zl : Decompressor) (rawData : List Nat)
    (entry : Nat × Nat) : RResult (List Nat) :=
  let offset := entry.1
  let size := entry.2
  if rawData.length ≤ offset ∨ rawData.length < offset + size then
    .err .invalidChunkOffsetSize
  else
    let chunkData := (rawData.drop offset).take size
    if chunkData.length < 5 then .err .invalidChunkHeaderLength
    else
      match chunkData with
      | b0 :: b1 :: b2 :: b3 :: m :: payloadArea =>
          let realChunkLen := ((b0 * 256 + b1) * 256 + b2) * 256 + b3
          if realChunkLen ≤ payloadArea.length then
            match decodeBinaryData gz zl (payloadArea.take realChunkLen) m with
            | .ok d => .ok d
            | .error e => .err (.binError e)
          else .panicked
      | _ => .err .invalidChunkHeaderLength

/-- The pipeline applied to one present entry inside
`RegionFile::process_all_chunks`: read and decompress the chunk, parse it,
and require a compound root. -/
def decodeEntry (gz zl : Decompressor) (rawData : List Nat)
    (entry : Nat × Nat) : RResult NbtTagCompound :=
  match readAndDecompressChunk gz zl rawData entry with
  | .ok chunkBytes =>
    match parseBytes chunkBytes with
    | .ok t _ =>
      match t.compoundVal with
      | some c => .ok c
      | none => .err .parseError
    | .err _ => .err .parseError
    | .panicked => .panicked
    | .fuelOut => .panicked
  | .err e => .err e
  | .panicked => .panicked

/-- The loop of `RegionFile::process_all_chunks` over the offset-table
entries in index order: entries with byte offset 0 are skipped; the first
failing present entry aborts the whole run. -/
def processEntries (gz zl : Decompressor) (rawData : List Nat) :
    List (Nat × Nat) → RResult (List NbtTagCompound)
  | [] => .ok []
  | e :: rest =>
    if e.1 = 0 then processEntries gz zl rawData rest
    else
      match decodeEntry gz zl rawData e with
      | .ok c =>
        match processEntries gz zl rawData rest with
        | .ok l => .ok (c :: l)
        | .err er => .err er
        | .panicked => .panicked
      | .err er => .err er
      | .panicked => .panicked

/-- `RegionFile::to_compounds_list` (via `RegionFile::new` and
`process_all_chunks`) from src/region/mod.rs. -/
def regionToCompoundsList (gz zl : Decompressor) (rawData : List Nat) :
    RResult (List NbtTagCompound) :=
  match readHeader rawData with
  | .ok header => processEntries gz zl rawData (parseChunkOffsets header)
  | .error e => .err e

/-! ## Block search and palette decoding, from src/lib.rs
(`McWorldDescriptor`) and the identical free functions in
src/chunk_format/mod.rs.

Key byte sequences for the chunk-format navigation. -/

/-- The key `sections`. -/
def kSections : List Nat := [115, 101, 99, 116, 105, 111, 110, 115]

/-- The key `block_states`. -/
def kBlockStates : List Nat := [98, 108, 111, 99, 107, 95, 115, 116, 97, 116, 101, 115]

/-- The key `palette`. -/
def kPalette : List Nat := [112, 97, 108, 101, 116, 116, 101]

/-- The key `data`. -/
def kData : List Nat := [100, 97, 116, 97]

/-- The key `Name`. -/
def kName : List Nat := [78, 97, 109, 101]

/-- The key `Y`. -/
def kY : List Nat := [89]

/-- The key `xPos`. -/
def kxPos : List Nat := [120, 80, 111, 115]

/-- The key `yPos`. -/
def kyPos : List Nat := [121, 80, 111, 115]

/-- The key `zPos`. -/
def kzPos : List Nat := [122, 80, 111, 115]

/-- `Coordinates` from src/blocks/mod.rs (i32 fields, modelled as `Int`;
none of the verified inputs approaches the i32 range). -/
structure Coordinates where
  x : Int
  y : Int
  z : Int
  deriving DecidableEq

/-- The per-name position lists accumulated by the search
(`HashMap<String, Vec<Coordinates>>`). -/
def PosMap : Type := List (List Nat × List Coordinates)

/-- The search's `blocks_positions_list` update: insert an empty vector
when the key is absent, then push onto the keyed vector. -/
def pushPos (m : PosMap) (nm : List Nat) (c : Coordinates) : PosMap :=
  match m with
  | [] => [(nm, [c])]
  | (k, l) :: rest =>
      if k = nm then (k, l ++ [c]) :: rest else (k, l) :: pushPos rest nm c

/-- `get_chunk_coordinates` from src/lib.rs: each of `xPos`, `yPos`,
`zPos` contributes its Int value when present with the Int kind, and 0
otherwise. -/
def coordOf (values : List (List Nat × NbtTag)) (k : List Nat) : Int :=
  match lookupKV values k with
  | some t =>
    match t.intVal with
    | some v => v
    | none => 0
  | none => 0

/-- `get_chunk_coordinates` from src/lib.rs / src/chunk_format/mod.rs. -/
def getChunkCoordinates (chunkCompound : NbtTagCompound) : Coordinates :=
  ⟨coordOf chunkCompound.values kxPos,
   coordOf chunkCompound.values kyPos,
   coordOf chunkCompound.values kzPos⟩

/-- `find_block_states_in_section` from src/lib.rs. -/
def findBlockStatesInSection (sectionTag : NbtTag) : Option NbtTag :=
  match sectionTag with
  | .compound _ values => lookupKV values kBlockStates
  | _ => none

/-- `find_palette_in_block_states` from src/lib.rs: the palette list's
values and, when present with the LongArray kind, the data array. -/
def findPaletteInBlockStates (blockStatesTag : NbtTag) :
    Option (List NbtTag) × Option (List Int) :=
  match blockStatesTag with
  | .compound _ values =>
    match lookupKV values kPalette with
    | some paletteTag =>
      match paletteTag with
      | .list _ _ paletteValues =>
        match lookupKV values kData with
        | some dataTag =>
          match dataTag with
          | .longArray _ dataValues => (some paletteValues, some dataValues)
          | _ => (some paletteValues, none)
        | none => (some paletteValues, none)
      | _ => (none, none)
    | none => (none, none)
  | _ => (none, none)

/-- `find_block_name_in_palette` from src/lib.rs. -/
def findBlockNameInPalette (blocksTag : NbtTag) (blockResourceLocation : List Nat) :
    Bool :=
  match blocksTag with
  | .compound _ values =>
    match lookupKV values kName with
    | some nameTag =>
      match nameTag with
      | .string _ v => v = blockResourceLocation
      | _ => false
    | none => false
  | _ => false

/-- The inner palette scan of `create_unique_palette_id_set`: indices of
the palette entries whose `Name` matches, in palette order (the contents
of the per-name `HashSet<u32>`). -/
def paletteIdxsFrom (blockName : List Nat) (idx : Nat) :
    List NbtTag → List Nat
  | [] => []
  | b :: rest =>
      if findBlockNameInPalette b blockName
      then idx :: paletteIdxsFrom blockName (idx + 1) rest
      else paletteIdxsFrom blockName (idx + 1) rest

/-- `create_unique_palette_id_set` from src/lib.rs: one index set per
queried name, and whether any set is non-empty. -/
def createUniquePaletteIdSet (paletteValues : List NbtTag)
    (blockResourceLocation : List (List Nat)) :
    Bool × List (List Nat × List Nat) :=
  match blockResourceLocation with
  | [] => (false, [])
  | nm :: rest =>
    let idxs := paletteIdxsFrom nm 0 paletteValues
    let (created, m) := createUniquePaletteIdSet paletteValues rest
    (created || !idxs.isEmpty, insertKV m nm idxs)

/-- `get_palette_id_size_in_bit` from src/lib.rs /
src/chunk_format/mod.rs: `32 - (P - 1 : u32).leading_zeros()`, floored at
4.  The `P - 1` subtraction wraps (release-build u32 semantics), and
`leading_zeros m = 32 - bitLen m`. -/
def bitLen32 : Nat → Nat :=
  go 32
where
  /-- 32-bit-bounded binary length, structurally recursive on fuel. -/
  go : Nat → Nat → Nat
    | 0, _ => 0
    | fuel + 1, m => if m = 0 then 0 else go fuel (m / 2) + 1

/-- `get_palette_id_size_in_bit` from src/lib.rs / src/chunk_format/mod.rs. -/
def getPaletteIdSizeInBit (paletteValues : List NbtTag) : Nat :=
  let numPaletteInSection := paletteValues.length % 4294967296
  let wrapped := (numPaletteInSection + 4294967295) % 4294967296
  let dataIndexBitSize := 32 - (32 - bitLen32 wrapped)
  if dataIndexBitSize < 4 then 4 else dataIndexBitSize

/-- `as u64` reinterpretation of an i64 (`data_array_element as u64`). -/
def toU64 (w : Int) : Nat :=
  (w % 18446744073709551616).toNat

/-- `get_palette_ids_from_data_array_element` from src/lib.rs /
src/chunk_format/mod.rs: `⌊64 / W⌋` indices per word, the k-th being
`(w as u64 >> (k·W)) & ((u64::MAX) >> (64 − W))`, each pushed `as u32`
(hence the `% 2^32`). -/
def getPaletteIdsFromDataArrayElement (dataArrayElement : Int)
    (indexSizeInBit : Nat) : List Nat :=
  let bitMask := (18446744073709551615 >>> (64 - indexSizeInBit))
  let indexesInDataElement := 64 / indexSizeInBit
  (List.range indexesInDataElement).map fun elementDataIndex =>
    ((toU64 dataArrayElement >>> (elementDataIndex * indexSizeInBit)) &&& bitMask)
      % 4294967296

/-- `advance_block_position` from src/lib.rs / src/chunk_format/mod.rs. -/
def advanceBlockPosition (p : Int × Int × Int) : Int × Int × Int :=
  let (x, y, z) := p
  if x = 15 then
    (if z = 15 then (0, y + 1, 0) else (0, y, z + 1))
  else (x + 1, y, z)

/-- The state threaded through the data-array scan: the sub-chunk
position and the accumulated position map. -/
def ScanSt : Type := Int × Int × Int × PosMap

/-- The innermost loop of `get_absolute_blocks_positions`: for one decoded
palette id, iterate over every queried name's index set; on a hit push the
absolute position, and advance the sub-chunk position on every iteration
(faithful to the source, where the advance sits inside this loop). -/
def scanNames (chunkPos : Coordinates) (paletteId : Nat) :
    List (List Nat × List Nat) → ScanSt → ScanSt
  | [], st => st
  | (blockName, idSet) :: rest, (x, y, z, acc) =>
    let st1 : ScanSt :=
      if idSet.contains paletteId then
        (x, y, z, pushPos acc blockName
          ⟨chunkPos.x * 16 + x, chunkPos.y * 16 + y, chunkPos.z * 16 + z⟩)
      else (x, y, z, acc)
    scanNames chunkPos paletteId rest
      (let (x1, y1, z1, acc1) := st1
       let (x2, y2, z2) := advanceBlockPosition (x1, y1, z1)
       (x2, y2, z2, acc1))

/-- The palette-id loop of `get_absolute_blocks_positions`.  (The state is
matched apart so that kernel reduction forces it at every step.) -/
def scanIds (chunkPos : Coordinates) (searched : List (List Nat × List Nat)) :
    List Nat → ScanSt → ScanSt
  | [], st => st
  | paletteId :: rest, (x, y, z, acc) =>
      scanIds chunkPos searched rest (scanNames chunkPos paletteId searched (x, y, z, acc))

/-- The data-array loop of `get_absolute_blocks_positions`. -/
def scanDataArray (chunkPos : Coordinates) (searched : List (List Nat × List Nat))
    (dataIndexBitSize : Nat) : List Int → ScanSt → ScanSt
  | [], st => st
  | w :: rest, (x, y, z, acc) =>
      scanDataArray chunkPos searched dataIndexBitSize rest
        (scanIds chunkPos searched (getPaletteIdsFromDataArrayElement w dataIndexBitSize)
          (x, y, z, acc))

/-- `get_absolute_blocks_positions` from src/lib.rs /
src/chunk_format/mod.rs. -/
def getAbsoluteBlocksPositions (blockStatesTag : NbtTag)
    (blockResourceLocation : List (List Nat)) (chunkPos : Coordinates)
    (blocksPositionsList : PosMap) : PosMap :=
  match findPaletteInBlockStates blockStatesTag with
  | (some paletteValues, dataOpt) =>
    let (uniqueSetCreated, searched) :=
      createUniquePaletteIdSet paletteValues blockResourceLocation
    if uniqueSetCreated then
      match dataOpt with
      | some blocksDataArray =>
          let dataIndexBitSize := getPaletteIdSizeInBit paletteValues
          (scanDataArray chunkPos searched dataIndexBitSize blocksDataArray
            (0, 0, 0, blocksPositionsList)).2.2.2
      | none => blocksPositionsList
    else blocksPositionsList
  | (none, _) => blocksPositionsList

/-- The per-section `Y` read in `search_blocks`:
`sections.compound_as_ref().unwrap().values.get("Y").unwrap().byte().unwrap()`
— `none` models the panic of a failing unwrap. -/
def sectionY (sectionTag : NbtTag) : Option Int :=
  match sectionTag with
  | .compound _ values =>
    match lookupKV values kY with
    | some t => t.byteVal
    | none => none
  | _ => none

/-- The sections loop of `search_blocks` for one chunk. -/
def processSections (blockResourceLocation : List (List Nat))
    (chunkPos : Coordinates) : List NbtTag → PosMap → Option PosMap
  | [], acc => some acc
  | s :: rest, acc =>
    match findBlockStatesInSection s with
    | none => processSections blockResourceLocation chunkPos rest acc
    | some blockStatesTag =>
      match sectionY s with
      | none => none
      | some subchunkY =>
          processSections blockResourceLocation chunkPos rest
            (getAbsoluteBlocksPositions blockStatesTag blockResourceLocation
              ⟨chunkPos.x, subchunkY, chunkPos.z⟩ acc)

/-- The per-chunk body of `search_blocks`. -/
def processChunk (blockResourceLocation : List (List Nat))
    (chunkCompound : NbtTagCompound) (acc : PosMap) : Option PosMap :=
  let chunkPos := getChunkCoordinates chunkCompound
  match lookupKV chunkCompound.values kSections with
  | some sectionsTag =>
    match sectionsTag with
    | .list _ _ sectionsValues =>
        processSections blockResourceLocation chunkPos sectionsValues acc
    | _ => some acc
  | none => some acc

/-- The chunk loop of `search_blocks`. -/
def processChunks (blockResourceLocation : List (List Nat)) :
    List NbtTagCompound → PosMap → Option PosMap
  | [], acc => some acc
  | c :: rest, acc =>
    match processChunk blockResourceLocation c acc with
    | some acc1 => processChunks blockResourceLocation rest acc1
    | none => none

/-- `McWorldDescriptor::search_blocks` from src/lib.rs (equivalently
`inspect_chunks` from src/chunk_format/mod.rs): `none` models a panic of
the per-section `Y` unwraps. -/
def searchBlocks (tagCompoundsList : List NbtTagCompound)
    (blockResourceLocation : List (List Nat)) : Option PosMap :=
  processChunks blockResourceLocation tagCompoundsList []

/-! ## Concrete instances used by the verification -/

/-- A decompressor that always fails (no valid gzip/zlib framing). -/
def noDecomp : Decompressor := fun _ => none

/-- Queried block name for the search instances (the byte `n`). -/
def nmN : List Nat := [110]

/-- A second palette name (the byte `m`). -/
def nmM : List Nat := [109]

/-- A third block name (the byte `a`). -/
def nmA : List Nat := [97]

/-- Two-entry palette: entry 0 named `m`, entry 1 named `n`. -/
def cexPalette : List NbtTag :=
  [.compound [] [(kName, .string kName nmM)],
   .compound [] [(kName, .string kName nmN)]]

/-- A data long-array of 257 words: 256 zero words followed by the word 1
(4112 packed indices at width 4 — 16 more than the 4096 positions of a
section). -/
def cexData : List Int := List.replicate 256 0 ++ [1]

/-- Section at `Y = 0` holding the palette and data above. -/
def cexSection : NbtTag :=
  .compound [] [(kY, .byte kY 0),
    (kBlockStates, .compound kBlockStates
      [(kPalette, .list kPalette .compound cexPalette),
       (kData, .longArray kData cexData)])]

/-- Chunk at chunk coordinates (0, 0) holding the section above. -/
def cexChunk : NbtTagCompound :=
  ⟨[], [(kxPos, .int kxPos 0), (kzPos, .int kzPos 0),
        (kSections, .list kSections .compound [cexSection])]⟩

/-- Compound `root { int: Int(42) }` (the round-trip instance, the same
shape as the repository's own `test_parse_bytes_with_valid_data`). -/
def rtCompound : NbtTagCompound :=
  ⟨[114, 111, 111, 116], [([105, 110, 116], .int [105, 110, 116] 42)]⟩

/-- The encoder's output on `rtCompound` — note no trailing End byte. -/
def rtBytes : List Nat :=
  [10, 0, 4, 114, 111, 111, 116, 3, 0, 3, 105, 110, 116, 0, 0, 0, 42]

/-- A section whose palette has a single entry named `a` and no `data`
long-array. -/
def c5Section : NbtTag :=
  .compound [] [(kY, .byte kY 0),
    (kBlockStates, .compound kBlockStates
      [(kPalette, .list kPalette .compound
        [.compound [] [(kName, .string kName nmA)]])])]

/-- Chunk at chunk coordinates (0, 0) holding `c5Section`. -/
def c5Chunk : NbtTagCompound :=
  ⟨[], [(kxPos, .int kxPos 0), (kzPos, .int kzPos 0),
        (kSections, .list kSections .compound [c5Section])]⟩

/-- Offset table announcing chunks in sectors 1 and 2, one sector each. -/
def hdrTwo : List Nat := [0, 0, 1, 1] ++ ([0, 0, 2, 1] ++ List.replicate 4088 0)

/-- A well-formed sector: length 4, compression id 0, payload an empty
root compound `0A 00 00 00`. -/
def sectorGood : List Nat := [0, 0, 0, 4, 0, 10, 0, 0, 0] ++ List.replicate 4087 0

/-- A malformed sector: length 1, compression id 0, payload the invalid
kind byte 255. -/
def sectorBad : List Nat := [0, 0, 0, 1, 0, 255] ++ List.replicate 4090 0

/-- Region with a decodable chunk at sector 1 and a malformed chunk at
sector 2. -/
def regionTwo : List Nat := hdrTwo ++ (sectorGood ++ sectorBad)

/-- Offset table announcing only the chunk in sector 1. -/
def hdrOne : List Nat := [0, 0, 1, 1] ++ List.replicate 4092 0

/-- Region with a single present, decodable chunk. -/
def regionOne : List Nat := hdrOne ++ sectorGood

/-- Region that is a bare offset table whose entry 0 has sector offset 0
but sector count 1 — not the all-zero absent form. -/
def regionZeroOffset : List Nat := [0, 0, 0, 1] ++ List.replicate 4092 0

/-! ## Helper lemmas -/

/-- The all-ones 64-bit word shifted right by `64 - W` is the W-bit mask. -/
theorem allOnes_shiftRight (W : Nat) (h : W ≤ 64) :
    (18446744073709551615 : Nat) >>> (64 - W) = 2 ^ W - 1 := by
  have h64 : (18446744073709551615 : Nat) = 2 ^ (W + (64 - W)) - 1 := by
    have hW : W + (64 - W) = 64 := by omega
    rw [hW]
    norm_num
  rw [Nat.shiftRight_eq_div_pow, h64, pow_add]
  have hA : 0 < 2 ^ (64 - W) := Nat.pos_pow_of_pos _ (by omega)
  have hB : 0 < 2 ^ W := Nat.pos_pow_of_pos _ (by omega)
  have hle : 2 ^ (64 - W) ≤ 2 ^ W * 2 ^ (64 - W) :=
    Nat.le_mul_of_pos_left _ hB
  have hmul : (2 ^ W - 1) * 2 ^ (64 - W) = 2 ^ W * 2 ^ (64 - W) - 2 ^ (64 - W) := by
    rw [Nat.sub_mul, one_mul]
  have hsplit : 2 ^ W * 2 ^ (64 - W) - 1 =
      2 ^ (64 - W) * (2 ^ W - 1) + (2 ^ (64 - W) - 1) := by
    rw [Nat.mul_comm (2 ^ (64 - W)) (2 ^ W - 1), hmul]
    omega
  rw [hsplit, Nat.mul_add_div hA, Nat.div_eq_of_lt (by omega), Nat.add_zero]

/-- `bitLen32.go` computes the binary length below its fuel bound. -/
theorem bitLen32_go_eq : ∀ fuel m, m < 2 ^ fuel →
    bitLen32.go fuel m = if m = 0 then 0 else Nat.log 2 m + 1 := by
  intro fuel
  induction fuel with
  | zero => intro m hm; interval_cases m; simp [bitLen32.go]
  | succ f ih =>
    intro m hm
    by_cases h0 : m = 0
    · simp [bitLen32.go, h0]
    · rw [bitLen32.go, if_neg h0, if_neg h0]
      have hdiv : m / 2 < 2 ^ f := by
        have := Nat.pow_succ 2 f
        omega
      rw [ih (m / 2) hdiv]
      by_cases h1 : m / 2 = 0
      · have hm1 : m = 1 := by omega
        simp [h1, hm1]
      · rw [if_neg h1, Nat.log_div_base]
        have : 0 < Nat.log 2 m := Nat.log_pos (by omega) (by omega)
        omega

/-- The 32-bit binary length of `m`, below `2 ^ 32`. -/
theorem bitLen32_eq (m : Nat) (h : m < 4294967296) :
    bitLen32 m = if m = 0 then 0 else Nat.log 2 m + 1 :=
  bitLen32_go_eq 32 m (by norm_num; omega)

/-- For `2 ≤ P`, the ceiling log2 is the binary length of `P - 1`. -/
theorem clog2_eq_log2_pred (P : Nat) (h : 2 ≤ P) :
    Nat.clog 2 P = Nat.log 2 (P - 1) + 1 := by
  have hup : Nat.clog 2 P ≤ Nat.log 2 (P - 1) + 1 := by
    rw [← Nat.le_pow_iff_clog_le (by omega)]
    have := Nat.lt_pow_succ_log_self (b := 2) (by omega) (P - 1)
    omega
  have hlo : ¬ Nat.clog 2 P ≤ Nat.log 2 (P - 1) := by
    rw [← Nat.le_pow_iff_clog_le (by omega)]
    have := Nat.pow_log_le_self 2 (x := P - 1) (by omega)
    omega
  omega

/-! ## Claim C4 -/

/-- C4 (counterexample): on a standalone payload that neither the gzip nor
the zlib decoder accepts and whose first byte 255 is not a valid tag kind
id, `try_decode_data` returns the raw bytes successfully — it does not
test the first byte and never reaches `DecompressionFailed`, contradicting
the claimed behaviour. -/
theorem tryDecodeData_no_first_byte_check :
    tryDecodeData noDecomp noDecomp [255] = .ok [255] ∧
    NbtTagType.fromId 255 = .error (.invalidTagType 255) :=
  ⟨rfl, rfl⟩

/-- C4 (amended): decoding a standalone payload with no advertised
compression attempts gzip, then zlib, then raw, and returns the first
attempt whose decompression succeeds, with no validity test on the result;
the raw attempt always succeeds, so the `DecompressionFailed` error is
never returned. -/
theorem tryDecodeData_order (gz zl : Decompressor) (d : List Nat) :
    tryDecodeData gz zl d = (match gz d with
      | some g => .ok g
      | none => match zl d with
        | some z => .ok z
        | none => .ok d) ∧
    tryDecodeData gz zl d ≠ .error .decompressionFailed := by
  have h : tryDecodeData gz zl d = (match gz d with
      | some g => .ok g
      | none => match zl d with
        | some z => .ok z
        | none => .ok d) := by
    cases hg : gz d <;> cases hz : zl d <;>
      simp [tryDecodeData, tryMethods, decodeBinaryData, CompressionType.toU8,
        CompressionType.fromU8, hg, hz]
  refine ⟨h, ?_⟩
  rw [h]
  cases hg : gz d <;> cases hz : zl d <;> simp

/-! ## Claim C7 -/

/-- C7 (counterexample): at width 33, the word `2^32` decodes its slot 0
to `0`, not to the claimed `(u >> 0) & ((1 << 33) - 1) = 2^32` — the
extracted value is truncated by the push `as u32`. -/
theorem paletteIds_truncation :
    (getPaletteIdsFromDataArrayElement (4294967296 : Int) 33)[0]? = some 0 ∧
    (toU64 4294967296 >>> (0 * 33)) &&& (2 ^ 33 - 1) = 4294967296 ∧
    (0 : Nat) ≠ 4294967296 :=
  ⟨rfl, by decide, by decide⟩

/-- C7 (amended): for every 64-bit word `w` (signed long) and width
`4 ≤ W ≤ 63`, extraction yields exactly `⌊64 / W⌋` indices, the k-th being
`((u >> (k·W)) & ((1 << W) − 1)) mod 2^32` for `u` the unsigned
reinterpretation of `w` — i.e. the claimed formula truncated to 32 bits;
indices never straddle word boundaries and the top bit is not a sign bit. -/
theorem paletteIds_extraction (w : Int) (W : Nat) (h4 : 4 ≤ W) (h63 : W ≤ 63) :
    (getPaletteIdsFromDataArrayElement w W).length = 64 / W ∧
    ∀ k, k < 64 / W →
      (getPaletteIdsFromDataArrayElement w W)[k]? =
        some (((toU64 w >>> (k * W)) &&& (2 ^ W - 1)) % 4294967296) := by
  unfold getPaletteIdsFromDataArrayElement
  rw [allOnes_shiftRight W (by omega)]
  constructor
  · simp
  · intro k hk
    rw [List.getElem?_map, List.getElem?_range hk]
    rfl

/-- C7 (witness): the amended extraction at the word `-1` and width 5 —
twelve indices, each read from the unsigned reinterpretation `2^64 - 1`. -/
theorem paletteIds_extraction_witness :
    (getPaletteIdsFromDataArrayElement (-1) 5).length = 64 / 5 ∧
    ∀ k, k < 64 / 5 →
      (getPaletteIdsFromDataArrayElement (-1) 5)[k]? =
        some (((toU64 (-1) >>> (k * 5)) &&& (2 ^ 5 - 1)) % 4294967296) :=
  paletteIds_extraction (-1) 5 (by decide) (by decide)

/-! ## Claim C6 -/

/-- C6 (counterexample): for the empty palette (P = 0) the computed width
is 32, not the claimed 4 — the u32 subtraction `P - 1` wraps to
`2^32 - 1`. -/
theorem paletteWidth_empty :
    getPaletteIdSizeInBit ([] : List NbtTag) = 32 ∧
    getPaletteIdSizeInBit ([] : List NbtTag) ≠ 4 :=
  ⟨rfl, by decide⟩

/-- C6 (amended): for every palette of size `P < 2^32`, the computed index
width is `max(4, ⌈log₂ P⌉)` for `P ≥ 1` (hence 4 for P = 1), but for
`P = 0` it is 32 (wrapping `0u32 - 1`), not 4. -/
theorem paletteWidth_eq (paletteValues : List NbtTag)
    (h : paletteValues.length < 4294967296) :
    getPaletteIdSizeInBit paletteValues =
      if paletteValues.length = 0 then 32
      else max 4 (Nat.clog 2 paletteValues.length) := by
  simp only [getPaletteIdSizeInBit]
  generalize hgen : paletteValues.length = P at h ⊢
  rw [Nat.mod_eq_of_lt h]
  by_cases h0 : P = 0
  · subst h0
    rw [if_pos rfl]
    rw [show ((0 : Nat) + 4294967295) % 4294967296 = 4294967295 by norm_num]
    have hb : bitLen32 4294967295 = 32 := by
      rw [bitLen32_eq 4294967295 (by norm_num), if_neg (by norm_num),
        Nat.log_eq_of_pow_le_of_lt_pow (m := 31) (by norm_num) (by norm_num)]
    rw [hb]
    norm_num
  · rw [if_neg h0]
    have hwrap : (P + 4294967295) % 4294967296 = P - 1 := by
      have hsplit : P + 4294967295 = (P - 1) + 4294967296 := by omega
      rw [hsplit, Nat.add_mod_right, Nat.mod_eq_of_lt (by omega)]
    rw [hwrap]
    by_cases h1 : P = 1
    · subst h1
      rw [Nat.clog_one_right]
      rfl
    · have h2 : 2 ≤ P := by omega
      have hb : bitLen32 (P - 1) = Nat.log 2 (P - 1) + 1 := by
        rw [bitLen32_eq _ (by omega), if_neg (by omega)]
      have hlog : Nat.log 2 (P - 1) < 32 :=
        Nat.log_lt_of_lt_pow (by omega) (by omega)
      rw [hb, show 32 - (32 - (Nat.log 2 (P - 1) + 1)) = Nat.log 2 (P - 1) + 1 by omega]
      rw [clog2_eq_log2_pred P h2]
      rcases Nat.lt_or_ge (Nat.log 2 (P - 1) + 1) 4 with hc | hc
      · rw [if_pos hc, Nat.max_def, if_neg (by omega)]
      · rw [if_neg (by omega), Nat.max_def, if_pos (by omega)]

/-- C6 (witness): the amended width formula at a palette of 17 entries
(width 5). -/
theorem paletteWidth_eq_witness :
    getPaletteIdSizeInBit (List.replicate 17 NbtTag.endTag) =
      if (List.replicate 17 NbtTag.endTag).length = 0 then 32
      else max 4 (Nat.clog 2 (List.replicate 17 NbtTag.endTag).length) :=
  paletteWidth_eq _ (by simp)

/-! ## Claim C8 -/

/-- Reading `n` ByteArray payload bytes of value 0 succeeds and leaves the
rest. -/
theorem readI8s_replicate (n : Nat) (rest : List Nat) :
    readI8s n (List.replicate n 0 ++ rest) = .ok (List.replicate n 0) rest := by
  induction n with
  | zero => simp [readI8s]
  | succ k ih => simp [List.replicate_succ, readI8s, ih, PResult.bind, i8OfByte]

/-- Reading `n` IntArray elements from `4·n` zero payload bytes succeeds
and leaves the rest. -/
theorem readI32s_replicate (n : Nat) (rest : List Nat) :
    readI32s n (List.replicate (4 * n) 0 ++ rest) = .ok (List.replicate n 0) rest := by
  induction n with
  | zero => simp [readI32s]
  | succ k ih =>
    rw [show 4 * (k + 1) = 4 * k + 1 + 1 + 1 + 1 by ring]
    simp only [List.replicate_succ, List.cons_append]
    rw [readI32s, ih]
    simp [PResult.bind, beI32, List.replicate_succ]

/-- Reading `n` LongArray elements from `8·n` zero payload bytes succeeds
and leaves the rest. -/
theorem readI64s_replicate (n : Nat) (rest : List Nat) :
    readI64s n (List.replicate (8 * n) 0 ++ rest) = .ok (List.replicate n 0) rest := by
  induction n with
  | zero => simp [readI64s]
  | succ k ih =>
    rw [show 8 * (k + 1) = 8 * k + 1 + 1 + 1 + 1 + 1 + 1 + 1 + 1 by ring]
    simp only [List.replicate_succ, List.cons_append]
    rw [readI64s, ih]
    simp [PResult.bind, beI64, List.replicate_succ]

/-- One-step unfolding of the ByteArray branch of `parse_value` at a
four-byte length prefix. -/
theorem parseValue_byteArray_eq (fuel : Nat) (name : List Nat)
    (b0 b1 b2 b3 : Nat) (rest : List Nat) :
    parseValue (fuel + 1) .byteArray name (b0 :: b1 :: b2 :: b3 :: rest) =
      (if beI32 b0 b1 b2 b3 > 65536 then .err .maxNbtListLengthExceeded
       else if beI32 b0 b1 b2 b3 < 0 then .panicked
       else (readI8s (beI32 b0 b1 b2 b3).toNat rest).bind fun vs r =>
         .ok (.byteArray name vs) r) := rfl

/-- One-step unfolding of the IntArray branch of `parse_value` at a
four-byte length prefix. -/
theorem parseValue_intArray_eq (fuel : Nat) (name : List Nat)
    (b0 b1 b2 b3 : Nat) (rest : List Nat) :
    parseValue (fuel + 1) .intArray name (b0 :: b1 :: b2 :: b3 :: rest) =
      (if beI32 b0 b1 b2 b3 > 65536 then .err .maxNbtListLengthExceeded
       else if beI32 b0 b1 b2 b3 < 0 then .panicked
       else (readI32s (beI32 b0 b1 b2 b3).toNat rest).bind fun vs r =>
         .ok (.intArray name vs) r) := rfl

/-- One-step unfolding of the LongArray branch of `parse_value` at a
four-byte length prefix. -/
theorem parseValue_longArray_eq (fuel : Nat) (name : List Nat)
    (b0 b1 b2 b3 : Nat) (rest : List Nat) :
    parseValue (fuel + 1) .longArray name (b0 :: b1 :: b2 :: b3 :: rest) =
      (if beI32 b0 b1 b2 b3 > 65536 then .err .maxNbtListLengthExceeded
       else if beI32 b0 b1 b2 b3 < 0 then .panicked
       else (readI64s (beI32 b0 b1 b2 b3).toNat rest).bind fun vs r =>
         .ok (.longArray name vs) r) := rfl

/-- One-step unfolding of `parse_list` at an element-kind byte and a
four-byte length prefix. -/
theorem parseList_eq (fuel : Nat) (name : List Nat)
    (t b0 b1 b2 b3 : Nat) (rest : List Nat) :
    parseList (fuel + 1) name (t :: b0 :: b1 :: b2 :: b3 :: rest) =
      (match NbtTagType.fromId t with
       | .error e => .err e
       | .ok ty =>
         if beI32 b0 b1 b2 b3 > 65536 then .err .maxNbtListLengthExceeded
         else if beI32 b0 b1 b2 b3 < 0 then .panicked
         else
           match parseListElems fuel ty (beI32 b0 b1 b2 b3).toNat rest with
           | .ok vs r => .ok (.list name ty vs) r
           | .err e => .err e
           | .panicked => .panicked
           | .fuelOut => .fuelOut) := rfl

/-- A Byte list element parses in one step at any positive fuel. -/
theorem parseValue_byte_elem (g : Nat) (b : Nat) (rest : List Nat) :
    parseValue (g + 1) .byte [] (b :: rest) = .ok (.byte [] (i8OfByte b)) rest := rfl

/-- An exhausted element count yields the empty element list. -/
theorem parseListElems_zero (fuel : Nat) (ty : NbtTagType) (cur : List Nat) :
    parseListElems fuel ty 0 cur = .ok [] cur := by
  cases fuel <;> rfl

/-- One-step unfolding of the element loop at positive fuel and count. -/
theorem parseListElems_succ (g : Nat) (ty : NbtTagType) (n : Nat) (cur : List Nat) :
    parseListElems (g + 1) ty (n + 1) cur =
      (match parseValue g ty [] cur with
       | .ok v rest =>
         match parseListElems g ty n rest with
         | .ok vs r => .ok (v :: vs) r
         | .err e => .err e
         | .panicked => .panicked
         | .fuelOut => .fuelOut
       | .err e => .err e
       | .panicked => .panicked
       | .fuelOut => .fuelOut) := rfl

/-- Parsing `n` Byte elements from `n` zero payload bytes succeeds at any
fuel at least `n + 1`, leaving the rest. -/
theorem parseListElems_bytes : ∀ (n fuel : Nat) (rest : List Nat),
    parseListElems (n + (fuel + 1)) .byte n (List.replicate n 0 ++ rest) =
      .ok (List.replicate n (NbtTag.byte [] 0)) rest := by
  intro n
  induction n with
  | zero =>
    intro fuel rest
    exact parseListElems_zero _ _ _
  | succ k ih =>
    intro fuel rest
    rw [show k + 1 + (fuel + 1) = (k + (fuel + 1)) + 1 by omega]
    simp only [List.replicate_succ, List.cons_append]
    rw [parseListElems_succ]
    rw [show k + (fuel + 1) = (k + fuel) + 1 by omega, parseValue_byte_elem]
    show (match parseListElems ((k + fuel) + 1) .byte k (List.replicate k 0 ++ rest) with
       | PResult.ok vs r => PResult.ok (NbtTag.byte [] (i8OfByte 0) :: vs) r
       | PResult.err e => PResult.err e
       | PResult.panicked => PResult.panicked
       | PResult.fuelOut => PResult.fuelOut) =
      PResult.ok (List.replicate (k + 1) (NbtTag.byte [] 0)) rest
    rw [show (k + fuel) + 1 = k + (fuel + 1) by omega, ih fuel rest]
    rw [List.replicate_succ]
    rfl

/-- C8 (counterexample): a ByteArray length prefix of −1 does not abort
with the length error — the guard only tests `len > 65536`, and the
negative length reaches `Vec::with_capacity((-1) as usize)`, a capacity
overflow panic. -/
theorem parse_negative_length_no_length_error :
    parseValue 1 .byteArray [] [255, 255, 255, 255] = .panicked ∧
    (PResult.panicked : PResult NbtTag) ≠ .err .maxNbtListLengthExceeded :=
  ⟨rfl, by simp⟩

/-- Variant of `parseList_eq` with the element kind resolved. -/
theorem parseList_eq_ok (fuel : Nat) (name : List Nat) (t : Nat)
    (ty : NbtTagType) (b0 b1 b2 b3 : Nat) (rest : List Nat)
    (hf : NbtTagType.fromId t = .ok ty) :
    parseList (fuel + 1) name (t :: b0 :: b1 :: b2 :: b3 :: rest) =
      (if beI32 b0 b1 b2 b3 > 65536 then .err .maxNbtListLengthExceeded
       else if beI32 b0 b1 b2 b3 < 0 then .panicked
       else
         match parseListElems fuel ty (beI32 b0 b1 b2 b3).toNat rest with
         | .ok vs r => .ok (.list name ty vs) r
         | .err e => .err e
         | .panicked => .panicked
         | .fuelOut => .fuelOut) := by
  rw [parseList_eq, hf]

/-- A ByteArray length prefix of exactly 65 536 is accepted. -/
theorem pg_byteArray_ok (fuel : Nat) (name rest : List Nat) :
    parseValue (fuel + 1) .byteArray name
      ([0, 1, 0, 0] ++ (List.replicate 65536 0 ++ rest)) =
      .ok (.byteArray name (List.replicate 65536 (0 : Int))) rest := by
  simp only [List.cons_append, List.nil_append]
  rw [parseValue_byteArray_eq]
  rw [if_neg (by norm_num [beI32]), if_neg (by norm_num [beI32])]
  rw [show (beI32 0 1 0 0).toNat = 65536 from rfl, readI8s_replicate]
  rfl

/-- An IntArray length prefix of exactly 65 536 is accepted. -/
theorem pg_intArray_ok (fuel : Nat) (name rest : List Nat) :
    parseValue (fuel + 1) .intArray name
      ([0, 1, 0, 0] ++ (List.replicate 262144 0 ++ rest)) =
      .ok (.intArray name (List.replicate 65536 (0 : Int))) rest := by
  simp only [List.cons_append, List.nil_append]
  rw [parseValue_intArray_eq]
  rw [if_neg (by norm_num [beI32]), if_neg (by norm_num [beI32])]
  rw [show (beI32 0 1 0 0).toNat = 65536 from rfl,
    show (262144 : Nat) = 4 * 65536 from rfl, readI32s_replicate]
  rfl

/-- A LongArray length prefix of exactly 65 536 is accepted. -/
theorem pg_longArray_ok (fuel : Nat) (name rest : List Nat) :
    parseValue (fuel + 1) .longArray name
      ([0, 1, 0, 0] ++ (List.replicate 524288 0 ++ rest)) =
      .ok (.longArray name (List.replicate 65536 (0 : Int))) rest := by
  simp only [List.cons_append, List.nil_append]
  rw [parseValue_longArray_eq]
  rw [if_neg (by norm_num [beI32]), if_neg (by norm_num [beI32])]
  rw [show (beI32 0 1 0 0).toNat = 65536 from rfl,
    show (524288 : Nat) = 8 * 65536 from rfl, readI64s_replicate]
  rfl

/-- A List length prefix of exactly 65 536 (Byte elements) is accepted. -/
theorem pg_list_ok (fuel : Nat) (name rest : List Nat) :
    parseList (65536 + (fuel + 1) + 1) name
      ([1, 0, 1, 0, 0] ++ (List.replicate 65536 0 ++ rest)) =
      .ok (.list name .byte (List.replicate 65536 (NbtTag.byte [] 0))) rest := by
  simp only [List.cons_append, List.nil_append]
  rw [parseList_eq_ok (65536 + (fuel + 1)) name 1 .byte 0 1 0 0 _ rfl]
  rw [if_neg (by norm_num [beI32]), if_neg (by norm_num [beI32])]
  rw [show (beI32 0 1 0 0).toNat = 65536 from rfl,
    parseListElems_bytes 65536 fuel rest]

/-- Every ByteArray length prefix above 65 536 is rejected. -/
theorem pg_byteArray_rej (fuel : Nat) (name : List Nat) (b0 b1 b2 b3 : Nat)
    (rest : List Nat) (h : 65536 < beI32 b0 b1 b2 b3) :
    parseValue (fuel + 1) .byteArray name (b0 :: b1 :: b2 :: b3 :: rest) =
      .err .maxNbtListLengthExceeded := by
  rw [parseValue_byteArray_eq, if_pos h]

/-- Every IntArray length prefix above 65 536 is rejected. -/
theorem pg_intArray_rej (fuel : Nat) (name : List Nat) (b0 b1 b2 b3 : Nat)
    (rest : List Nat) (h : 65536 < beI32 b0 b1 b2 b3) :
    parseValue (fuel + 1) .intArray name (b0 :: b1 :: b2 :: b3 :: rest) =
      .err .maxNbtListLengthExceeded := by
  rw [parseValue_intArray_eq, if_pos h]

/-- Every LongArray length prefix above 65 536 is rejected. -/
theorem pg_longArray_rej (fuel : Nat) (name : List Nat) (b0 b1 b2 b3 : Nat)
    (rest : List Nat) (h : 65536 < beI32 b0 b1 b2 b3) :
    parseValue (fuel + 1) .longArray name (b0 :: b1 :: b2 :: b3 :: rest) =
      .err .maxNbtListLengthExceeded := by
  rw [parseValue_longArray_eq, if_pos h]

/-- Every List length prefix above 65 536 is rejected, for every valid
element kind. -/
theorem pg_list_rej (fuel : Nat) (name : List Nat) (t : Nat) (ty : NbtTagType)
    (b0 b1 b2 b3 : Nat) (rest : List Nat) (hf : NbtTagType.fromId t = .ok ty)
    (h : 65536 < beI32 b0 b1 b2 b3) :
    parseList (fuel + 1) name (t :: b0 :: b1 :: b2 :: b3 :: rest) =
      .err .maxNbtListLengthExceeded := by
  rw [parseList_eq_ok fuel name t ty b0 b1 b2 b3 rest hf, if_pos h]

/-- Every negative ByteArray length prefix panics at the allocation. -/
theorem pg_byteArray_neg (fuel : Nat) (name : List Nat) (b0 b1 b2 b3 : Nat)
    (rest : List Nat) (h : beI32 b0 b1 b2 b3 < 0) :
    parseValue (fuel + 1) .byteArray name (b0 :: b1 :: b2 :: b3 :: rest) =
      .panicked := by
  rw [parseValue_byteArray_eq, if_neg (by omega), if_pos h]

/-- Every negative IntArray length prefix panics at the allocation. -/
theorem pg_intArray_neg (fuel : Nat) (name : List Nat) (b0 b1 b2 b3 : Nat)
    (rest : List Nat) (h : beI32 b0 b1 b2 b3 < 0) :
    parseValue (fuel + 1) .intArray name (b0 :: b1 :: b2 :: b3 :: rest) =
      .panicked := by
  rw [parseValue_intArray_eq, if_neg (by omega), if_pos h]

/-- Every negative LongArray length prefix panics at the allocation. -/
theorem pg_longArray_neg (fuel : Nat) (name : List Nat) (b0 b1 b2 b3 : Nat)
    (rest : List Nat) (h : beI32 b0 b1 b2 b3 < 0) :
    parseValue (fuel + 1) .longArray name (b0 :: b1 :: b2 :: b3 :: rest) =
      .panicked := by
  rw [parseValue_longArray_eq, if_neg (by omega), if_pos h]

/-- Every negative List length prefix panics at the allocation, for every
valid element kind. -/
theorem pg_list_neg (fuel : Nat) (name : List Nat) (t : Nat) (ty : NbtTagType)
    (b0 b1 b2 b3 : Nat) (rest : List Nat) (hf : NbtTagType.fromId t = .ok ty)
    (h : beI32 b0 b1 b2 b3 < 0) :
    parseList (fuel + 1) name (t :: b0 :: b1 :: b2 :: b3 :: rest) = .panicked := by
  rw [parseList_eq_ok fuel name t ty b0 b1 b2 b3 rest hf, if_neg (by omega), if_pos h]

/-- C8 (amended): at every List, ByteArray, IntArray and LongArray length
prefix, a length of exactly 65 536 is accepted, every length of 65 537 or
more is rejected with the length error, and a negative length is not
rejected with the length error: it causes a capacity-overflow panic at
`Vec::with_capacity(len as usize)`.  Lengths are quantified through their
four prefix bytes `b0 b1 b2 b3`, whose signed big-endian value is
`beI32 b0 b1 b2 b3`. -/
theorem parse_length_guard :
    (∀ fuel name rest, parseValue (fuel + 1) .byteArray name
        ([0, 1, 0, 0] ++ (List.replicate 65536 0 ++ rest)) =
        .ok (.byteArray name (List.replicate 65536 (0 : Int))) rest) ∧
    (∀ fuel name rest, parseValue (fuel + 1) .intArray name
        ([0, 1, 0, 0] ++ (List.replicate 262144 0 ++ rest)) =
        .ok (.intArray name (List.replicate 65536 (0 : Int))) rest) ∧
    (∀ fuel name rest, parseValue (fuel + 1) .longArray name
        ([0, 1, 0, 0] ++ (List.replicate 524288 0 ++ rest)) =
        .ok (.longArray name (List.replicate 65536 (0 : Int))) rest) ∧
    (∀ fuel name rest, parseList (65536 + (fuel + 1) + 1) name
        ([1, 0, 1, 0, 0] ++ (List.replicate 65536 0 ++ rest)) =
        .ok (.list name .byte (List.replicate 65536 (NbtTag.byte [] 0))) rest) ∧
    (∀ fuel name b0 b1 b2 b3 rest, 65536 < beI32 b0 b1 b2 b3 →
        parseValue (fuel + 1) .byteArray name (b0 :: b1 :: b2 :: b3 :: rest) =
        .err .maxNbtListLengthExceeded) ∧
    (∀ fuel name b0 b1 b2 b3 rest, 65536 < beI32 b0 b1 b2 b3 →
        parseValue (fuel + 1) .intArray name (b0 :: b1 :: b2 :: b3 :: rest) =
        .err .maxNbtListLengthExceeded) ∧
    (∀ fuel name b0 b1 b2 b3 rest, 65536 < beI32 b0 b1 b2 b3 →
        parseValue (fuel + 1) .longArray name (b0 :: b1 :: b2 :: b3 :: rest) =
        .err .maxNbtListLengthExceeded) ∧
    (∀ fuel name t ty b0 b1 b2 b3 rest, NbtTagType.fromId t = .ok ty →
        65536 < beI32 b0 b1 b2 b3 →
        parseList (fuel + 1) name (t :: b0 :: b1 :: b2 :: b3 :: rest) =
        .err .maxNbtListLengthExceeded) ∧
    (∀ fuel name b0 b1 b2 b3 rest, beI32 b0 b1 b2 b3 < 0 →
        parseValue (fuel + 1) .byteArray name (b0 :: b1 :: b2 :: b3 :: rest) =
        .panicked) ∧
    (∀ fuel name b0 b1 b2 b3 rest, beI32 b0 b1 b2 b3 < 0 →
        parseValue (fuel + 1) .intArray name (b0 :: b1 :: b2 :: b3 :: rest) =
        .panicked) ∧
    (∀ fuel name b0 b1 b2 b3 rest, beI32 b0 b1 b2 b3 < 0 →
        parseValue (fuel + 1) .longArray name (b0 :: b1 :: b2 :: b3 :: rest) =
        .panicked) ∧
    (∀ fuel name t ty b0 b1 b2 b3 rest, NbtTagType.fromId t = .ok ty →
        beI32 b0 b1 b2 b3 < 0 →
        parseList (fuel + 1) name (t :: b0 :: b1 :: b2 :: b3 :: rest) = .panicked) :=
  ⟨pg_byteArray_ok, pg_intArray_ok, pg_longArray_ok, pg_list_ok,
   pg_byteArray_rej, pg_intArray_rej, pg_longArray_rej, pg_list_rej,
   pg_byteArray_neg, pg_intArray_neg, pg_longArray_neg, pg_list_neg⟩

/-- C8 (witness): the guard behaviour at concrete length prefixes — 65 537
and 131 072 and `i32::MAX` rejected with the length error for the array
kinds, a LongArray-element list of length 65 537 rejected, and the
negative lengths −1 and `i32::MIN` panicking instead of erroring. -/
theorem parse_length_guard_witness :
    parseValue 1 .byteArray [] (0 :: 1 :: 0 :: 1 :: []) =
      .err .maxNbtListLengthExceeded ∧
    parseValue 1 .intArray [] (0 :: 2 :: 0 :: 0 :: []) =
      .err .maxNbtListLengthExceeded ∧
    parseValue 1 .longArray [] (127 :: 255 :: 255 :: 255 :: []) =
      .err .maxNbtListLengthExceeded ∧
    parseList 1 [] (12 :: 0 :: 1 :: 0 :: 1 :: []) =
      .err .maxNbtListLengthExceeded ∧
    parseValue 1 .byteArray [] (255 :: 255 :: 255 :: 255 :: []) = .panicked ∧
    parseValue 1 .intArray [] (128 :: 0 :: 0 :: 0 :: []) = .panicked ∧
    parseValue 1 .longArray [] (255 :: 255 :: 255 :: 255 :: []) = .panicked ∧
    parseList 1 [] (12 :: 255 :: 255 :: 255 :: 255 :: []) = .panicked :=
  ⟨parse_length_guard.2.2.2.2.1 0 [] 0 1 0 1 [] (by norm_num [beI32]),
   parse_length_guard.2.2.2.2.2.1 0 [] 0 2 0 0 [] (by norm_num [beI32]),
   parse_length_guard.2.2.2.2.2.2.1 0 [] 127 255 255 255 [] (by norm_num [beI32]),
   parse_length_guard.2.2.2.2.2.2.2.1 0 [] 12 .longArray 0 1 0 1 [] rfl
     (by norm_num [beI32]),
   parse_length_guard.2.2.2.2.2.2.2.2.1 0 [] 255 255 255 255 [] (by norm_num [beI32]),
   parse_length_guard.2.2.2.2.2.2.2.2.2.1 0 [] 128 0 0 0 [] (by norm_num [beI32]),
   parse_length_guard.2.2.2.2.2.2.2.2.2.2.1 0 [] 255 255 255 255 []
     (by norm_num [beI32]),
   parse_length_guard.2.2.2.2.2.2.2.2.2.2.2 0 [] 12 .longArray 255 255 255 255 [] rfl
     (by norm_num [beI32])⟩

/-! ## Claim C2 -/

/-- C2: encoding the compound `root { int: Int(42) }` produces a byte
sequence with no End terminator after the compound body, and decoding that
byte sequence fails with an end-of-input error instead of returning the
compound — the round-trip does not hold. -/
theorem roundtrip_fails :
    writeTag rtCompound = rtBytes ∧
    parseBytes (writeTag rtCompound) = .err .io :=
  ⟨rfl, rfl⟩

/-! ## Claim C5 -/

/-- C5: in a section whose palette's entry 0 is named `a` but whose `data`
long-array is absent, searching for `a` reports no positions at all — the
absent-data case is an unimplemented `TODO` branch, not 4096 copies of
palette entry 0. -/
theorem data_absent_no_positions :
    findBlockNameInPalette (.compound [] [(kName, .string kName nmA)]) nmA = true ∧
    searchBlocks [c5Chunk] [nmA] = some [] :=
  ⟨rfl, rfl⟩

/-! ## Claim C1 -/

set_option maxRecDepth 1000000 in
/-- C1: block search is not sound for every world: querying `{n}` on a
chunk at (0, 0) whose single section (`Y = 0`) has palette
`[m, n]` and a 257-word data array returns the position (0, 16, 0), whose
local y-coordinate 16 lies outside 0..15 — the decoder keeps emitting past
the 4096 positions of the section instead of clipping. -/
theorem search_emits_out_of_section :
    searchBlocks [cexChunk] [nmN] = some [(nmN, [⟨0, 16, 0⟩])] ∧
    ¬((16 : Int) ≤ 16 * 0 + 15) :=
  ⟨by rfl, by decide⟩

/-! ## Region helper lemmas -/

/-- Splitting an all-zero table into 4-byte entries. -/
theorem chunksOf4_replicate_zero : ∀ n,
    chunksOf4 (List.replicate (4 * n) 0) = List.replicate n [0, 0, 0, 0] := by
  intro n
  induction n with
  | zero => rfl
  | succ k ih =>
    rw [show 4 * (k + 1) = (((4 * k + 1) + 1) + 1) + 1 by ring]
    simp only [List.replicate_succ]
    rw [chunksOf4, ih]

/-- All-zero offset entries are skipped without effect. -/
theorem processEntries_replicate_zero (gz zl : Decompressor) (raw : List Nat) :
    ∀ n, processEntries gz zl raw (List.replicate n (0, 0)) = .ok [] := by
  intro n
  induction n with
  | zero => rfl
  | succ k ih => rw [List.replicate_succ, processEntries, if_pos rfl, ih]

/-- Length of the two-chunk offset table. -/
theorem hdrTwo_length : hdrTwo.length = 4096 := by
  rw [hdrTwo]
  simp only [List.length_append, List.length_cons, List.length_nil,
    List.length_replicate]

/-- Length of the one-chunk offset table. -/
theorem hdrOne_length : hdrOne.length = 4096 := by
  rw [hdrOne]
  simp only [List.length_append, List.length_cons, List.length_nil,
    List.length_replicate]

/-- Length of the well-formed sector. -/
theorem sectorGood_length : sectorGood.length = 4096 := by
  rw [sectorGood]
  simp only [List.length_append, List.length_cons, List.length_nil,
    List.length_replicate]

/-- Length of the malformed sector. -/
theorem sectorBad_length : sectorBad.length = 4096 := by
  rw [sectorBad]
  simp only [List.length_append, List.length_cons, List.length_nil,
    List.length_replicate]

/-- Offset table of the two-chunk region. -/
theorem parseChunkOffsets_hdrTwo :
    parseChunkOffsets hdrTwo =
      (4096, 4096) :: (8192, 4096) :: List.replicate 1022 (0, 0) := by
  rw [parseChunkOffsets, hdrTwo]
  simp only [List.cons_append, List.nil_append]
  rw [chunksOf4, chunksOf4,
    show (4088 : Nat) = 4 * 1022 from rfl, chunksOf4_replicate_zero]
  rw [List.map_cons, List.map_cons, List.map_replicate]

/-- Offset table of the one-chunk region. -/
theorem parseChunkOffsets_hdrOne :
    parseChunkOffsets hdrOne =
      (4096, 4096) :: List.replicate 1023 (0, 0) := by
  rw [parseChunkOffsets, hdrOne]
  simp only [List.cons_append, List.nil_append]
  rw [chunksOf4,
    show (4092 : Nat) = 4 * 1023 from rfl, chunksOf4_replicate_zero]
  rw [List.map_cons, List.map_replicate]

/-- Offset table of the zero-offset region. -/
theorem parseChunkOffsets_zeroOffset :
    parseChunkOffsets regionZeroOffset =
      (0, 4096) :: List.replicate 1023 (0, 0) := by
  rw [parseChunkOffsets, regionZeroOffset]
  simp only [List.cons_append, List.nil_append]
  rw [chunksOf4,
    show (4092 : Nat) = 4 * 1023 from rfl, chunksOf4_replicate_zero]
  rw [List.map_cons, List.map_replicate]

/-- Reading the chunk at byte offset 4096 of a region laid out as
`pre ++ (sectorGood ++ post)` with a 4096-byte prefix: the decompressed
chunk bytes are the empty root compound `0A 00 00 00`. -/
theorem readChunk_good (gz zl : Decompressor) (pre post : List Nat)
    (hpre : pre.length = 4096) :
    readAndDecompressChunk gz zl (pre ++ (sectorGood ++ post)) (4096, 4096) =
      .ok [10, 0, 0, 0] := by
  have hdrop : (pre ++ (sectorGood ++ post)).drop 4096 = sectorGood ++ post := by
    rw [← hpre, List.drop_left]
  have htake : (sectorGood ++ post).take 4096 = sectorGood := by
    rw [← sectorGood_length, List.take_left]
  have hlen : (pre ++ (sectorGood ++ post)).length = 8192 + post.length := by
    simp only [List.length_append, hpre, sectorGood_length]
    omega
  have hsg : sectorGood = 0 :: 0 :: 0 :: 4 :: 0 ::
      ([10, 0, 0, 0] ++ List.replicate 4087 0) := by
    rw [sectorGood]
    simp only [List.cons_append, List.nil_append]
  have hpl : ([10, 0, 0, 0] ++ List.replicate 4087 (0 : Nat)).length = 4091 := by
    simp only [List.length_append, List.length_cons, List.length_nil,
      List.length_replicate]
  have htk4 : List.take 4 ([10, 0, 0, 0] ++ List.replicate 4087 (0 : Nat)) =
      [10, 0, 0, 0] := by
    rw [show (4 : Nat) = ([10, 0, 0, 0] : List Nat).length from rfl, List.take_left]
  rw [readAndDecompressChunk]
  simp only [hdrop, htake, hlen]
  rw [if_neg (by omega)]
  rw [hsg]
  rw [if_neg (by rw [← hsg, sectorGood_length]; omega)]
  simp only [hpl]
  rw [if_pos (by norm_num)]
  rw [show ((0 * 256 + 0) * 256 + 0) * 256 + 4 = 4 from rfl, htk4]
  rfl

/-- Decoding the chunk at byte offset 4096 of such a region yields the
empty root compound. -/
theorem decodeEntry_good (gz zl : Decompressor) (pre post : List Nat)
    (hpre : pre.length = 4096) :
    decodeEntry gz zl (pre ++ (sectorGood ++ post)) (4096, 4096) =
      .ok ⟨[], []⟩ := by
  rw [decodeEntry, readChunk_good gz zl pre post hpre]
  rfl

/-- Reading the chunk at byte offset 8192 of a region laid out as
`pre ++ sectorBad` with an 8192-byte prefix: the decompressed chunk bytes
are the single invalid kind byte 255. -/
theorem readChunk_bad (gz zl : Decompressor) (pre : List Nat)
    (hpre : pre.length = 8192) :
    readAndDecompressChunk gz zl (pre ++ sectorBad) (8192, 4096) =
      .ok [255] := by
  have hdrop : (pre ++ sectorBad).drop 8192 = sectorBad := by
    rw [← hpre, List.drop_left]
  have htake : sectorBad.take 4096 = sectorBad :=
    List.take_of_length_le (by rw [sectorBad_length])
  have hlen : (pre ++ sectorBad).length = 12288 := by
    rw [List.length_append, hpre, sectorBad_length]
  have hsb : sectorBad = 0 :: 0 :: 0 :: 1 :: 0 :: (255 :: List.replicate 4090 0) := by
    rw [sectorBad]
    simp only [List.cons_append, List.nil_append]
  have hpl : (255 :: List.replicate 4090 (0 : Nat)).length = 4091 := by
    simp only [List.length_cons, List.length_replicate]
  rw [readAndDecompressChunk]
  simp only [hdrop, htake, hlen]
  rw [if_neg (by omega)]
  rw [hsb]
  rw [if_neg (by rw [← hsb, sectorBad_length]; omega)]
  simp only [hpl]
  rw [if_pos (by norm_num)]
  rw [show ((0 * 256 + 0) * 256 + 0) * 256 + 1 = 1 from rfl]
  rfl

/-- Decoding the chunk at byte offset 8192 of such a region fails with the
parse error (invalid kind byte 255). -/
theorem decodeEntry_bad (gz zl : Decompressor) (pre : List Nat)
    (hpre : pre.length = 8192) :
    decodeEntry gz zl (pre ++ sectorBad) (8192, 4096) = .err .parseError := by
  rw [decodeEntry, readChunk_bad gz zl pre hpre]
  rfl

/-! ## Claim C3 -/

/-- C3 (counterexample): in the region `regionTwo` the chunk at sector 1
decodes successfully (shown by `regionOne`, the same region without the
malformed chunk, which yields exactly that compound) and the chunk at
sector 2 is malformed; converting `regionTwo` aborts with the parse error
and returns no compounds at all — the malformed chunk's error is not
collected per chunk and the successfully decoded chunk is not returned. -/
theorem region_aborts_on_malformed_chunk :
    regionToCompoundsList noDecomp noDecomp regionTwo = .err .parseError ∧
    regionToCompoundsList noDecomp noDecomp regionOne = .ok [⟨[], []⟩] := by
  constructor
  · have hd1 : decodeEntry noDecomp noDecomp regionTwo (4096, 4096) = .ok ⟨[], []⟩ := by
      rw [regionTwo]
      exact decodeEntry_good noDecomp noDecomp hdrTwo sectorBad hdrTwo_length
    have hd2 : decodeEntry noDecomp noDecomp regionTwo (8192, 4096) =
        .err .parseError := by
      rw [regionTwo, ← List.append_assoc]
      exact decodeEntry_bad noDecomp noDecomp (hdrTwo ++ sectorGood)
        (by rw [List.length_append, hdrTwo_length, sectorGood_length])
    have htake : regionTwo.take 4096 = hdrTwo := by
      rw [regionTwo, ← hdrTwo_length, List.take_left]
    have hlen : 4096 ≤ regionTwo.length := by
      rw [regionTwo]
      simp only [List.length_append, hdrTwo_length, sectorGood_length,
        sectorBad_length]
      omega
    rw [regionToCompoundsList, readHeader, if_pos hlen, htake]
    show processEntries noDecomp noDecomp regionTwo (parseChunkOffsets hdrTwo) =
      .err .parseError
    rw [parseChunkOffsets_hdrTwo, processEntries, if_neg (by decide), hd1,
      processEntries, if_neg (by decide), hd2]
  · have hd1 : decodeEntry noDecomp noDecomp regionOne (4096, 4096) = .ok ⟨[], []⟩ := by
      have h := decodeEntry_good noDecomp noDecomp hdrOne [] hdrOne_length
      rw [List.append_nil] at h
      rw [regionOne]
      exact h
    have htake : regionOne.take 4096 = hdrOne := by
      rw [regionOne, ← hdrOne_length, List.take_left]
    have hlen : 4096 ≤ regionOne.length := by
      rw [regionOne]
      simp only [List.length_append, hdrOne_length, sectorGood_length]
      omega
    rw [regionToCompoundsList, readHeader, if_pos hlen, htake]
    show processEntries noDecomp noDecomp regionOne (parseChunkOffsets hdrOne) =
      .ok [⟨[], []⟩]
    rw [parseChunkOffsets_hdrOne, processEntries, if_neg (by decide), hd1,
      processEntries_replicate_zero]

/-- C3 (amended): region conversion is strict, not tolerant: whenever
`process_all_chunks` returns a compound list at all, every present entry
(non-zero byte offset) decoded successfully and the list is exactly the
decoded compounds of the present entries in index order; equivalently, a
malformed present chunk aborts the whole conversion with its error and
the successfully decoded chunks are not returned. -/
theorem region_strict_abort (gz zl : Decompressor) (raw : List Nat)
    (es : List (Nat × Nat)) (l : List NbtTagCompound)
    (h : processEntries gz zl raw es = .ok l) :
    (∀ e ∈ es, e.1 ≠ 0 → (decodeEntry gz zl raw e).isOk = true) ∧
    l = es.filterMap fun e =>
      if e.1 = 0 then none else (decodeEntry gz zl raw e).toOption := by
  induction es generalizing l with
  | nil =>
    rw [processEntries] at h
    cases h
    simp
  | cons e rest ih =>
    rw [processEntries] at h
    by_cases h0 : e.1 = 0
    · rw [if_pos h0] at h
      obtain ⟨h1, h2⟩ := ih l h
      refine ⟨?_, ?_⟩
      · intro x hx hx0
        rcases List.mem_cons.mp hx with hx | hx
        · subst hx
          exact absurd h0 hx0
        · exact h1 x hx hx0
      · rw [List.filterMap_cons, if_pos h0]
        exact h2
    · rw [if_neg h0] at h
      cases hd : decodeEntry gz zl raw e with
      | ok c =>
        rw [hd] at h
        cases hr : processEntries gz zl raw rest with
        | ok l2 =>
          rw [hr] at h
          cases h
          obtain ⟨h1, h2⟩ := ih l2 hr
          refine ⟨?_, ?_⟩
          · intro x hx hx0
            rcases List.mem_cons.mp hx with hx | hx
            · subst hx
              rw [hd]
              rfl
            · exact h1 x hx hx0
          · rw [List.filterMap_cons, if_neg h0, hd]
            rw [← h2]
            rfl
        | err er =>
          rw [hr] at h
          cases h
        | panicked =>
          rw [hr] at h
          cases h
      | err er =>
        rw [hd] at h
        cases h
      | panicked =>
        rw [hd] at h
        cases h

/-- C3 (witness): the strict-conversion characterisation applied to the
one-entry table of `regionOne`, whose present chunk decodes to the empty
root compound. -/
theorem region_strict_abort_witness :
    (∀ e ∈ [((4096 : Nat), (4096 : Nat))], e.1 ≠ 0 →
      (decodeEntry noDecomp noDecomp regionOne e).isOk = true) ∧
    [(⟨[], []⟩ : NbtTagCompound)] = [((4096 : Nat), (4096 : Nat))].filterMap fun e =>
      if e.1 = 0 then none
      else (decodeEntry noDecomp noDecomp regionOne e).toOption := by
  refine region_strict_abort noDecomp noDecomp regionOne _ _ ?_
  have h := decodeEntry_good noDecomp noDecomp hdrOne [] hdrOne_length
  rw [List.append_nil] at h
  rw [processEntries, if_neg (by decide), show regionOne = hdrOne ++ sectorGood from rfl,
    h, processEntries]

/-! ## Claim C9 -/

/-- A list of length `4·n` splits into `n` offset-table entries. -/
theorem chunksOf4_length : ∀ (n : Nat) (l : List Nat), l.length = 4 * n →
    (chunksOf4 l).length = n := by
  intro n
  induction n with
  | zero =>
    intro l hl
    have h0 : l = [] := List.length_eq_zero.mp (by omega)
    rw [h0]
    rfl
  | succ k ih =>
    intro l hl
    rcases l with _ | ⟨a, _ | ⟨b, _ | ⟨c, _ | ⟨d, tl⟩⟩⟩⟩ <;>
      simp only [List.length_cons, List.length_nil] at hl <;> try omega
    rw [chunksOf4, List.length_cons, ih tl (by omega)]

/-- When every present entry decodes, the loop returns exactly the decoded
compounds of the present entries in index order. -/
theorem processEntries_all_ok (gz zl : Decompressor) (raw : List Nat) :
    ∀ es : List (Nat × Nat),
    (∀ e ∈ es, e.1 ≠ 0 → (decodeEntry gz zl raw e).isOk = true) →
    processEntries gz zl raw es = .ok (es.filterMap fun e =>
      if e.1 = 0 then none else (decodeEntry gz zl raw e).toOption) := by
  intro es
  induction es with
  | nil => intro _; rfl
  | cons e rest ih =>
    intro hdec
    rw [processEntries, List.filterMap_cons]
    by_cases h0 : e.1 = 0
    · rw [if_pos h0, if_pos h0]
      exact ih fun x hx => hdec x (List.mem_cons_of_mem e hx)
    · rw [if_neg h0, if_neg h0]
      have hok := hdec e (List.mem_cons_self e rest) h0
      cases hd : decodeEntry gz zl raw e with
      | ok c =>
        rw [ih fun x hx => hdec x (List.mem_cons_of_mem e hx)]
        rfl
      | err er => rw [hd] at hok; cases hok
      | panicked => rw [hd] at hok; cases hok

/-- C9 (amended): for a buffer with at least a full 4096-byte offset
table, the table always holds exactly 1024 entries, and when every entry
with a non-zero byte offset decodes successfully the conversion returns
one compound per such entry in numeric index order, skipping exactly the
entries whose 3-byte sector offset is 0 — regardless of the sector-count
byte, so a zero-offset entry with a non-zero sector count is skipped even
though it is not the all-zero absent form. -/
theorem region_enumeration (gz zl : Decompressor) (raw : List Nat)
    (h4096 : 4096 ≤ raw.length)
    (hdec : ∀ e ∈ parseChunkOffsets (raw.take 4096), e.1 ≠ 0 →
      (decodeEntry gz zl raw e).isOk = true) :
    regionToCompoundsList gz zl raw =
      .ok ((parseChunkOffsets (raw.take 4096)).filterMap fun e =>
        if e.1 = 0 then none else (decodeEntry gz zl raw e).toOption) ∧
    (parseChunkOffsets (raw.take 4096)).length = 1024 := by
  constructor
  · rw [regionToCompoundsList, readHeader, if_pos h4096]
    exact processEntries_all_ok gz zl raw _ hdec
  · rw [parseChunkOffsets, List.length_map]
    exact chunksOf4_length 1024 _ (by rw [List.length_take]; omega)

/-- C9 (witness): the enumeration characterisation applied to `regionOne`,
whose single present chunk decodes successfully — the compound list it
induces has length 1, not 1024. -/
theorem region_enumeration_witness :
    regionToCompoundsList noDecomp noDecomp regionOne =
      .ok ((parseChunkOffsets (regionOne.take 4096)).filterMap fun e =>
        if e.1 = 0 then none
        else (decodeEntry noDecomp noDecomp regionOne e).toOption) ∧
    (parseChunkOffsets (regionOne.take 4096)).length = 1024 := by
  have htake : regionOne.take 4096 = hdrOne := by
    rw [regionOne, ← hdrOne_length, List.take_left]
  have hgood : decodeEntry noDecomp noDecomp regionOne (4096, 4096) = .ok ⟨[], []⟩ := by
    have h := decodeEntry_good noDecomp noDecomp hdrOne [] hdrOne_length
    rw [List.append_nil] at h
    exact h
  refine region_enumeration noDecomp noDecomp regionOne ?_ ?_
  · rw [regionOne]
    simp only [List.length_append, hdrOne_length, sectorGood_length]
    omega
  · rw [htake, parseChunkOffsets_hdrOne]
    intro e he h0
    rcases List.mem_cons.mp he with he | he
    · subst he
      rw [hgood]
      rfl
    · rcases (List.mem_replicate.mp he).2 with he
      subst he
      exact absurd rfl h0

/-- C9 (counterexample): in `regionZeroOffset`, entry 0 is `(0, 1 sector)`
— a zero sector offset with a non-zero sector count, which is not the
all-zero absent form — yet the conversion silently skips it and returns
the empty list with no error; the skip test is `offset == 0`, not
"entry is absent", and visiting the entry would have failed (its decode is
not successful), so the claim's "skips exactly the absent entries" is
false on this region. -/
theorem region_skips_zero_offset_entry :
    regionToCompoundsList noDecomp noDecomp regionZeroOffset = .ok [] ∧
    (parseChunkOffsets (regionZeroOffset.take 4096))[0]? = some (0, 4096) ∧
    (decodeEntry noDecomp noDecomp regionZeroOffset (0, 4096)).isOk = false := by
  have hzlen : regionZeroOffset.length = 4096 := by
    rw [regionZeroOffset]
    simp only [List.length_append, List.length_cons, List.length_nil,
      List.length_replicate]
  have htake : regionZeroOffset.take 4096 = regionZeroOffset :=
    List.take_of_length_le (by omega)
  refine ⟨?_, ?_, ?_⟩
  · rw [regionToCompoundsList, readHeader, if_pos (by omega), htake]
    show processEntries noDecomp noDecomp regionZeroOffset
      (parseChunkOffsets regionZeroOffset) = .ok []
    rw [parseChunkOffsets_zeroOffset, processEntries, if_pos rfl,
      processEntries_replicate_zero]
  · rw [htake, parseChunkOffsets_zeroOffset, List.getElem?_cons_zero]
  · have hz : regionZeroOffset = 0 :: 0 :: 0 :: 1 :: 0 :: List.replicate 4091 0 := by
      rw [regionZeroOffset]
      simp only [List.cons_append, List.nil_append]
      rw [show (4092 : Nat) = 4091 + 1 from rfl, List.replicate_succ]
    have hpl : (List.replicate 4091 (0 : Nat)).length = 4091 := by
      simp only [List.length_replicate]
    have hrd : readAndDecompressChunk noDecomp noDecomp regionZeroOffset (0, 4096) =
        .ok [0] := by
      rw [readAndDecompressChunk]
      simp only [hzlen]
      rw [if_neg (by omega)]
      rw [List.drop_zero, htake, hz]
      rw [if_neg (by rw [← hz, hzlen]; omega)]
      simp only [hpl]
      rw [if_pos (by norm_num)]
      rw [show ((0 * 256 + 0) * 256 + 0) * 256 + 1 = 1 from rfl]
      rw [show (4091 : Nat) = 4090 + 1 from rfl, List.replicate_succ]
      rfl
    rw [decodeEntry, hrd]
    rfl

/-! ## Claim C10 -/

/-- Block search on a single chunk depends on the chunk only through its
chunk coordinates and its `sections` entry. -/
theorem searchBlocks_single_congr (c c1 : NbtTagCompound) (q : List (List Nat))
    (hsec : lookupKV c1.values kSections = lookupKV c.values kSections)
    (hco : getChunkCoordinates c1 = getChunkCoordinates c) :
    searchBlocks [c] q = searchBlocks [c1] q := by
  rw [searchBlocks, searchBlocks, processChunks, processChunks]
  have hpc : processChunk q c [] = processChunk q c1 [] := by
    rw [processChunk, processChunk, hsec, hco]
  rw [hpc]

/-- C10: when a chunk root compound lacks `xPos`, `yPos` or `zPos`, or
holds it at a non-Int kind, block search does not fail or skip the chunk:
it behaves exactly as if that chunk coordinate were the Int 0 (and the
per-section `Y` byte supplies the y component regardless). -/
theorem missing_chunk_coordinate_defaults_zero (c : NbtTagCompound)
    (q : List (List Nat)) :
    ((lookupKV c.values kxPos).bind NbtTag.intVal = none →
      searchBlocks [c] q =
        searchBlocks [⟨c.name, (kxPos, .int kxPos 0) :: c.values⟩] q) ∧
    ((lookupKV c.values kyPos).bind NbtTag.intVal = none →
      searchBlocks [c] q =
        searchBlocks [⟨c.name, (kyPos, .int kyPos 0) :: c.values⟩] q) ∧
    ((lookupKV c.values kzPos).bind NbtTag.intVal = none →
      searchBlocks [c] q =
        searchBlocks [⟨c.name, (kzPos, .int kzPos 0) :: c.values⟩] q) := by
  have hco : ∀ k : List Nat, (lookupKV c.values k).bind NbtTag.intVal = none →
      coordOf c.values k = 0 := by
    intro k hk
    rw [coordOf]
    cases hl : lookupKV c.values k with
    | none => rfl
    | some t =>
      rw [hl, Option.some_bind] at hk
      show (match t.intVal with | some v => v | none => 0 : Int) = 0
      rw [hk]
  have hcons : ∀ (k k1 : List Nat) (t : NbtTag), k1 ≠ k →
      lookupKV ((k1, t) :: c.values) k = lookupKV c.values k := by
    intro k k1 t hne
    rw [lookupKV, if_neg hne]
  have hconsEq : ∀ (k : List Nat) (t : NbtTag),
      lookupKV ((k, t) :: c.values) k = some t := by
    intro k t
    rw [lookupKV, if_pos rfl]
  refine ⟨?_, ?_, ?_⟩ <;> intro hk <;>
    refine searchBlocks_single_congr _ _ q ?_ ?_
  · exact hcons kSections kxPos _ (by decide)
  · rw [getChunkCoordinates, getChunkCoordinates]
    show (⟨coordOf ((kxPos, .int kxPos 0) :: c.values) kxPos,
          coordOf ((kxPos, .int kxPos 0) :: c.values) kyPos,
          coordOf ((kxPos, .int kxPos 0) :: c.values) kzPos⟩ : Coordinates) = _
    rw [show coordOf ((kxPos, .int kxPos 0) :: c.values) kxPos = 0 by
        rw [coordOf, hconsEq]; rfl, hco kxPos hk]
    rw [show coordOf ((kxPos, .int kxPos 0) :: c.values) kyPos =
        coordOf c.values kyPos by rw [coordOf, hcons kyPos kxPos _ (by decide), coordOf]]
    rw [show coordOf ((kxPos, .int kxPos 0) :: c.values) kzPos =
        coordOf c.values kzPos by rw [coordOf, hcons kzPos kxPos _ (by decide), coordOf]]
  · exact hcons kSections kyPos _ (by decide)
  · rw [getChunkCoordinates, getChunkCoordinates]
    show (⟨coordOf ((kyPos, .int kyPos 0) :: c.values) kxPos,
          coordOf ((kyPos, .int kyPos 0) :: c.values) kyPos,
          coordOf ((kyPos, .int kyPos 0) :: c.values) kzPos⟩ : Coordinates) = _
    rw [show coordOf ((kyPos, .int kyPos 0) :: c.values) kyPos = 0 by
        rw [coordOf, hconsEq]; rfl, hco kyPos hk]
    rw [show coordOf ((kyPos, .int kyPos 0) :: c.values) kxPos =
        coordOf c.values kxPos by rw [coordOf, hcons kxPos kyPos _ (by decide), coordOf]]
    rw [show coordOf ((kyPos, .int kyPos 0) :: c.values) kzPos =
        coordOf c.values kzPos by rw [coordOf, hcons kzPos kyPos _ (by decide), coordOf]]
  · exact hcons kSections kzPos _ (by decide)
  · rw [getChunkCoordinates, getChunkCoordinates]
    show (⟨coordOf ((kzPos, .int kzPos 0) :: c.values) kxPos,
          coordOf ((kzPos, .int kzPos 0) :: c.values) kyPos,
          coordOf ((kzPos, .int kzPos 0) :: c.values) kzPos⟩ : Coordinates) = _
    rw [show coordOf ((kzPos, .int kzPos 0) :: c.values) kzPos = 0 by
        rw [coordOf, hconsEq]; rfl, hco kzPos hk]
    rw [show coordOf ((kzPos, .int kzPos 0) :: c.values) kxPos =
        coordOf c.values kxPos by rw [coordOf, hcons kxPos kzPos _ (by decide), coordOf]]
    rw [show coordOf ((kzPos, .int kzPos 0) :: c.values) kyPos =
        coordOf c.values kyPos by rw [coordOf, hcons kyPos kzPos _ (by decide), coordOf]]

/-- C10 (witness): the default-to-zero behaviour at the empty chunk
compound, which lacks all three coordinate keys. -/
theorem missing_chunk_coordinate_witness :
    searchBlocks [⟨[], []⟩] [] =
      searchBlocks [⟨[], [(kxPos, .int kxPos 0)]⟩] [] ∧
    searchBlocks [⟨[], []⟩] [] =
      searchBlocks [⟨[], [(kyPos, .int kyPos 0)]⟩] [] ∧
    searchBlocks [⟨[], []⟩] [] =
      searchBlocks [⟨[], [(kzPos, .int kzPos 0)]⟩] [] :=
  ⟨(missing_chunk_coordinate_defaults_zero ⟨[], []⟩ []).1 rfl,
   (missing_chunk_coordinate_defaults_zero ⟨[], []⟩ []).2.1 rfl,
   (missing_chunk_coordinate_defaults_zero ⟨[], []⟩ []).2.2 rfl⟩

end FastNbt
